import Mathlib

/-!
Verification of the crash-analysis core of the cloudberry-toolbox repository
(`cmd/core_parser*.go`, `cmd/core_gdb.go`, `cmd/core_parser_output.go`).

The Go sources are shallowly embedded: each Go function used by a claim is
translated into a computable Lean definition operating on `String` /
`List Char`, with Go's `regexp` calls hand-compiled into explicit scanning
functions that follow the leftmost-first (backtracking) submatch semantics
of the concrete patterns appearing in the sources.  Go `int` is embedded as
`Int`; Go maps with distinct literal keys are embedded as association lists
or decision trees, which is observationally equivalent for lookups.
-/

namespace CBToolbox

/-! ## Character classes of Go's regexp (RE2 Perl classes)

`\d` = `[0-9]`, `\s` = `[\t\n\f\r ]`, `\w` = `[0-9A-Za-z_]`. -/

def chIsDigit (c : Char) : Bool := '0' ≤ c && c ≤ '9'

def chIsSpace (c : Char) : Bool :=
  c = ' ' || c = '\t' || c = '\n' || c = '\x0c' || c = '\r'

def chIsWord (c : Char) : Bool :=
  chIsDigit c || ('a' ≤ c && c ≤ 'z') || ('A' ≤ c && c ≤ 'Z') || c = '_'

def chIsHexDigit (c : Char) : Bool :=
  chIsDigit c || ('a' ≤ c && c ≤ 'f') || ('A' ≤ c && c ≤ 'F')

/-- lowercase hex digit class `[0-9a-f]` as written in the Go patterns. -/
def chIsHexLower (c : Char) : Bool :=
  chIsDigit c || ('a' ≤ c && c ≤ 'f')

/-! ## List-of-chars primitives shared by the hand-compiled matchers -/

/-- `startsWithCh l p`: `p` is a leading segment of `l`
(embedding of matching a literal at the current position). -/
def startsWithCh : List Char → List Char → Bool
  | _, [] => true
  | [], _ :: _ => false
  | c :: cs, d :: ds => c = d && startsWithCh cs ds

/-- Greedily split off the longest leading run satisfying `p`
(embedding of a greedy `X*` / `X+` over a character class:
since every pattern we compile follows such a run with a character
outside the class, the greedy run never needs to backtrack). -/
def spanCh (p : Char → Bool) : List Char → List Char × List Char
  | [] => ([], [])
  | c :: cs =>
    if p c then
      let r := spanCh p cs
      (c :: r.1, r.2)
    else ([], c :: cs)

/-- Drop a literal from the front, or fail. -/
def dropLit : List Char → List Char → Option (List Char)
  | l, [] => some l
  | [], _ :: _ => none
  | c :: cs, d :: ds => if c = d then dropLit cs ds else none

/-- Substring containment, `strings.Contains` (embedding: a needle occurs
at some position of the haystack). -/
def containsSub (hay needle : List Char) : Bool :=
  match hay with
  | [] => startsWithCh [] needle
  | _ :: rest => startsWithCh hay needle || containsSub rest needle

/-- `strings.Contains` on `String`. -/
def strContains (hay needle : String) : Bool :=
  containsSub hay.data needle.data

/-- `strings.HasPrefix` on `String`. -/
def strHasPre (s p : String) : Bool := startsWithCh s.data p.data

/-! ## Signal name tables

Embeddings of `signalMap` (cmd/core_parser_signal.go:13-26) and of the local
table inside `getSignalName` in cmd/core_parser.go:166-184.  Both are Go map
literals with distinct integer keys; lookups are embedded as decision trees
in the source's listing order. -/

/-- Lookup in an integer-keyed table; a Go `map[int]string` literal with
distinct keys behaves exactly like first-match lookup in its listing. -/
def sigLookup : List (Int × String) → Int → Option String
  | [], _ => none
  | (k, v) :: rest, n => if n = k then some v else sigLookup rest n

/-- The entries of `signalMap` (cmd/core_parser_signal.go:13-26),
including 7 → SIGBUS. -/
def signalTable : List (Int × String) :=
  [(1, "SIGHUP"), (2, "SIGINT"), (3, "SIGQUIT"), (4, "SIGILL"),
   (6, "SIGABRT"), (7, "SIGBUS"), (8, "SIGFPE"), (9, "SIGKILL"),
   (11, "SIGSEGV"), (13, "SIGPIPE"), (14, "SIGALRM"), (15, "SIGTERM")]

/-- `signalMap[signo]` lookup. -/
def signalMap (signo : Int) : Option String := sigLookup signalTable signo

/-- `getSignalName` of cmd/core_parser_signal.go:72-78:
table lookup with a `SIGNAL_<n>` fallback (`fmt.Sprintf("SIGNAL_%d", signo)`). -/
def getSignalName (signo : Int) : String :=
  match signalMap signo with
  | some name => name
  | none => "SIGNAL_" ++ toString signo

/-- The entries of the local `signals` table inside `getSignalName` of
cmd/core_parser.go:167-179 (no entry for 7). -/
def signalsLocalTable : List (Int × String) :=
  [(1, "SIGHUP"), (2, "SIGINT"), (3, "SIGQUIT"), (4, "SIGILL"),
   (6, "SIGABRT"), (8, "SIGFPE"), (9, "SIGKILL"),
   (11, "SIGSEGV"), (13, "SIGPIPE"), (14, "SIGALRM"), (15, "SIGTERM")]

/-- `getSignalName` of cmd/core_parser.go:165-184 (local table variant). -/
def getSignalNameCoreParser (signo : Int) : String :=
  match sigLookup signalsLocalTable signo with
  | some name => name
  | none => "SIGNAL_" ++ toString signo

/-! ## Data model (cmd/core_types.go)

Go zero values: `""` for strings, `0` for ints, `false` for bools, `[]` for
slices and maps.  `map[string]string` is embedded as an association list with
overwrite-on-insert (one entry per key). -/

/-- `StackFrame` of cmd/core_types.go. -/
structure StackFrame where
  frameNum : String := ""
  location : String := ""
  function : String := ""
  arguments : String := ""
  sourceFile : String := ""
  lineNumber : Int := 0
  module : String := ""
  locals : List (String × String) := []
  deriving Repr, DecidableEq

/-- `ThreadInfo` of cmd/core_types.go. -/
structure ThreadInfo where
  threadID : String := ""
  lwpID : String := ""
  name : String := ""
  state : String := ""
  isCrashed : Bool := false
  backtrace : List StackFrame := []
  deriving Repr, DecidableEq

/-- `SignalFault` of cmd/core_types.go. -/
structure SignalFault where
  address : String := ""
  deriving Repr, DecidableEq

/-- `SignalInfo` of cmd/core_types.go. -/
structure SignalInfo where
  signalNumber : Int := 0
  signalCode : Int := 0
  signalName : String := ""
  signalDescription : String := ""
  faultAddress : String := ""
  faultInfo : Option SignalFault := none
  deriving Repr, DecidableEq

/-- `LibraryInfo` of cmd/core_types.go. -/
structure LibraryInfo where
  name : String := ""
  startAddr : String := ""
  endAddr : String := ""
  version : String := ""
  type : String := ""
  isLoaded : Bool := false
  textStart : String := ""
  textEnd : String := ""
  deriving Repr, DecidableEq

/-- The fields of `CoreAnalysis` (cmd/core_types.go) that the verified
functions read or write. -/
structure CoreAnalysis where
  timestamp : String := ""
  coreFile : String := ""
  basicInfo : List (String × String) := []
  stackTrace : List StackFrame := []
  threads : List ThreadInfo := []
  signalInfo : SignalInfo := {}
  libraries : List LibraryInfo := []
  deriving Repr, DecidableEq

/-- `CrashPattern` of cmd/core_types.go. -/
structure CrashPattern where
  signal : String := ""
  stackSignature : List String := []
  occurrenceCount : Int := 0
  affectedCoreFiles : List String := []
  deriving Repr, DecidableEq

/-! ## Deduplication (cmd/core_parser_base.go:141-152, cmd/core_gdb.go:101-114)

Both Go functions run the same loop: a `seen` set of string keys, appending
an element to the result iff its key has not been seen.  The loop is embedded
generically as `dedupGo`/`dedupByKey` over an arbitrary decidable key. -/

variable {α : Type} {κ : Type} [DecidableEq κ]

/-- The body of the Go dedup loops: `seen` collects keys already emitted. -/
def dedupGo (key : α → κ) (seen : List κ) : List α → List α
  | [] => []
  | x :: xs =>
    if key x ∈ seen then dedupGo key seen xs
    else x :: dedupGo key (key x :: seen) xs

/-- Whole dedup loop, starting from an empty `seen` set. -/
def dedupByKey (key : α → κ) (l : List α) : List α := dedupGo key [] l

/-- `deduplicateThreads` (cmd/core_parser_base.go:141-152): key is the
thread's `ThreadID`. -/
def deduplicateThreads (threads : List ThreadInfo) : List ThreadInfo :=
  dedupByKey (fun t => t.threadID) threads

/-- The frame key of `deduplicateStackTrace` (cmd/core_gdb.go:106):
`fmt.Sprintf("%s:%s:%s", frame.Function, frame.Location, frame.Module)`. -/
def frameKey (f : StackFrame) : String :=
  f.function ++ ":" ++ f.location ++ ":" ++ f.module

/-- `deduplicateStackTrace` (cmd/core_gdb.go:101-114). -/
def deduplicateStackTrace (frames : List StackFrame) : List StackFrame :=
  dedupByKey frameKey frames

/-- The identity key named by the specification for frame deduplication:
the (function, location, module) triple itself. -/
def tripleKey (f : StackFrame) : String × String × String :=
  (f.function, f.location, f.module)

/-- The three key fields contain no `':'` separator character. -/
def colonFree (f : StackFrame) : Prop :=
  ':' ∉ f.function.data ∧ ':' ∉ f.location.data ∧ ':' ∉ f.module.data

instance (f : StackFrame) : Decidable (colonFree f) := by
  unfold colonFree
  infer_instance

/-- Reference recursion for "keep the first element of each key class":
keep the head, drop every later element with the head's key, recurse. -/
def keepFirst (key : α → κ) : List α → List α
  | [] => []
  | x :: xs => x :: keepFirst key (xs.filter fun y => decide (key y ≠ key x))
  termination_by l => l.length
  decreasing_by
    simp_wf
    exact Nat.lt_succ_of_le (List.length_filter_le _ _)

/-! ## System-function classification (cmd/core_parser_base.go:182-215) -/

/-- The `systemFunctions` set literal of `isSystemFunction`. -/
def sysFunctionNames : List String :=
  ["main", "clone", "fork", "exec", "exit", "abort", "raise",
   "poll", "select", "read", "write"]

/-- The `systemPrefixes` literal of `isSystemFunction`. -/
def sysNamePrefixes : List String := ["std::", "__", "_Z", "pthread_"]

/-- `isSystemFunction` (cmd/core_parser_base.go:182-215): exact-name set
membership, then `strings.HasPrefix` over the prefix list. -/
def isSystemFunction (funcName : String) : Bool :=
  if sysFunctionNames.contains funcName then true
  else sysNamePrefixes.any (fun p => strHasPre funcName p)

/-! ## Crash-pattern clustering (cmd/core_parser_output.go:436-505)

`compareCores` of the dedicated output module: signal/function distributions
and signature grouping.  A Go `map` accumulates the groups; its iteration
order is unspecified, so the embedding fixes the observationally compatible
first-seen key order (every claim proved below is insensitive to group
order).  Time-range tracking (`time.Parse` on the analysis timestamps) uses
the external `time` package and is not modeled; no claim reads it. -/

/-- Split a string at every occurrence of a separator character
(`strings.Split` with a one-character separator); always returns at least
one (possibly empty) piece. -/
def splitChAux (sep : Char) : List Char → List Char → List (List Char)
  | [], acc => [acc.reverse]
  | c :: rest, acc =>
    if c = sep then acc.reverse :: splitChAux sep rest []
    else splitChAux sep rest (c :: acc)

/-- `strings.Split s (String.mk [sep])`. -/
def splitCh (sep : Char) (s : String) : List String :=
  (splitChAux sep s.data []).map (fun l => String.mk l)

/-- The signature-building loop body (cmd/core_parser_output.go:474-478):
`if i < 3 && !isSystemFunction(frame.Function) { signature.WriteString("|" + frame.Function) }`,
where `i` ranges over the raw `StackTrace` indices. -/
def signatureFrames : List StackFrame → Nat → String
  | [], _ => ""
  | f :: fs, i =>
    (if i < 3 && !(isSystemFunction f.function) then "|" ++ f.function else "")
      ++ signatureFrames fs (i + 1)

/-- The crash signature of one analysis: the signal name followed by the
qualifying frame functions (cmd/core_parser_output.go:471-479). -/
def crashSignature (a : CoreAnalysis) : String :=
  a.signalInfo.signalName ++ signatureFrames a.stackTrace 0

/-- `crashGroups[sig] = append(crashGroups[sig], analysis)`:
append to the entry with this key, or add a new entry. -/
def groupAdd : List (String × List CoreAnalysis) → String → CoreAnalysis →
    List (String × List CoreAnalysis)
  | [], k, a => [(k, [a])]
  | (k', g) :: rest, k, a =>
    if k' = k then (k', g ++ [a]) :: rest
    else (k', g) :: groupAdd rest k a

/-- The grouping loop over all analyses (first-seen key order). -/
def crashGroupsOf (analyses : List CoreAnalysis) :
    List (String × List CoreAnalysis) :=
  analyses.foldl (fun g a => groupAdd g (crashSignature a) a) []

/-- Group lookup (the value a Go map read would return; `[]` when absent). -/
def lookG : List (String × List CoreAnalysis) → String → List CoreAnalysis
  | [], _ => []
  | (k', g) :: rest, k => if k' = k then g else lookG rest k

/-- Build one `CrashPattern` from a signature and its group
(cmd/core_parser_output.go:485-495): `parts := strings.Split(signature, "|")`,
signal `parts[0]`, stack signature `parts[1:]`, count and core files from the
group.  `splitCh` always returns a non-empty list, so `parts[0]` is total. -/
def mkCrashPattern (sig : String) (group : List CoreAnalysis) : CrashPattern :=
  let parts := splitCh '|' sig
  { signal := parts.headD ""
    stackSignature := parts.tail
    occurrenceCount := (group.length : Int)
    affectedCoreFiles := group.map (fun a => a.coreFile) }

/-- Descending insertion by occurrence count (`sort.Slice` with the
comparator `count i > count j`; Go's sort is unstable, and every claim
proved below concerns pattern lists of length at most one, on which any
comparison sort is the identity). -/
def insertPatternDesc (p : CrashPattern) : List CrashPattern → List CrashPattern
  | [] => [p]
  | q :: qs =>
    if q.occurrenceCount < p.occurrenceCount then p :: q :: qs
    else q :: insertPatternDesc p qs

/-- Sort patterns by descending occurrence count. -/
def sortPatternsDesc (l : List CrashPattern) : List CrashPattern :=
  l.foldr insertPatternDesc []

/-- Increment a string-keyed counter (`m[k]++` on a Go `map[string]int`). -/
def bumpCount : List (String × Int) → String → List (String × Int)
  | [], k => [(k, 1)]
  | (k', n) :: rest, k =>
    if k' = k then (k', n + 1) :: rest
    else (k', n) :: bumpCount rest k

/-- The fields of `CoreComparison` (cmd/core_types.go) that `compareCores`
populates and the claims read. -/
structure CoreComparison where
  totalCores : Int := 0
  commonSignals : List (String × Int) := []
  commonFunctions : List (String × Int) := []
  crashPatterns : List CrashPattern := []
  deriving Repr, DecidableEq

/-- `compareCores` (cmd/core_parser_output.go:436-505).  The Go single pass
updates the three independent accumulators (signal counts, non-system
function counts, signature groups) in one loop; they are embedded as three
independent folds, which is observationally identical. -/
def compareCores (analyses : List CoreAnalysis) : CoreComparison :=
  { totalCores := (analyses.length : Int)
    commonSignals :=
      analyses.foldl (fun m a => bumpCount m a.signalInfo.signalName) []
    commonFunctions :=
      analyses.foldl
        (fun m a =>
          a.stackTrace.foldl
            (fun m' f =>
              if isSystemFunction f.function then m' else bumpCount m' f.function)
            m)
        []
    crashPatterns :=
      sortPatternsDesc
        (((crashGroupsOf analyses).filter (fun kg => decide (1 < kg.2.length))).map
          (fun kg => mkCrashPattern kg.1 kg.2)) }

/-! ## Fault-address resolution
(cmd/core_parser_libraries.go:187-203, cmd/core_parser_signal.go:152-172) -/

/-- ASCII lowercasing (`strings.ToLower`; the Go function also lowercases
non-ASCII letters, which cannot occur in the hex-address strings the two
functions compare). -/
def chToLower (c : Char) : Char :=
  if 'A' ≤ c && c ≤ 'Z' then Char.ofNat (c.toNat + 32) else c

/-- `strings.ToLower` on a string. -/
def strToLower (s : String) : String := String.mk (s.data.map chToLower)

/-- Go's built-in `<=` on strings: lexicographic comparison, shorter prefix
first (byte order; identical to code-point order on ASCII data). -/
def listLexLE : List Char → List Char → Bool
  | [], _ => true
  | _ :: _, [] => false
  | c :: cs, d :: ds => if c = d then listLexLE cs ds else decide (c < d)

/-- Go `s <= t` on strings. -/
def strLexLE (s t : String) : Bool := listLexLE s.data t.data

/-- `strings.TrimPrefix s "0x"`. -/
def trimPre0x (s : String) : String :=
  if strHasPre s "0x" then String.mk (s.data.drop 2) else s

/-- Hex digit value. -/
def hexDigitVal (c : Char) : Nat :=
  if chIsDigit c then c.toNat - '0'.toNat
  else if 'a' ≤ c && c ≤ 'f' then c.toNat - 'a'.toNat + 10
  else c.toNat - 'A'.toNat + 10

/-- Accumulate the value of a hex-digit string; `none` on the first
non-hex character (Go's syntax error). -/
def parseHexDigits : List Char → Nat → Option Nat
  | [], acc => some acc
  | c :: cs, acc =>
    if chIsHexDigit c then parseHexDigits cs (acc * 16 + hexDigitVal c)
    else none

/-- `strconv.ParseUint(s, 16, 64)` succeeding: `some v` iff `s` is a
non-empty all-hex string whose value fits in 64 bits. -/
def goParseUintHex (s : String) : Option Nat :=
  match s.data with
  | [] => none
  | cs =>
    match parseHexDigits cs 0 with
    | none => none
    | some v => if v < 2 ^ 64 then some v else none

/-- The value `strconv.ParseUint(s, 16, 64)` returns when its error is
discarded (`v, _ :=`): 0 on a syntax error, `2^64 - 1` on overflow. -/
def goParseUintHexVal (s : String) : Nat :=
  match s.data with
  | [] => 0
  | cs =>
    match parseHexDigits cs 0 with
    | none => 0
    | some v => if v < 2 ^ 64 then v else 2 ^ 64 - 1

/-- The normalized-string range test of `findAddressLibrary`
(cmd/core_parser_libraries.go:188-197): prepend `0x` when missing,
lowercase both sides, then two lexicographic string comparisons. -/
def stringRangeContains (address : String) (lib : LibraryInfo) : Bool :=
  let a1 := if strHasPre address "0x" then address else "0x" ++ address
  let addr := strToLower a1
  strLexLE (strToLower lib.textStart) addr && strLexLE addr (strToLower lib.textEnd)

/-- The loop of `findAddressLibrary`: first library whose normalized string
range contains the address. -/
def findAddrGo (address : String) : List LibraryInfo → Option LibraryInfo
  | [] => none
  | lib :: rest =>
    if stringRangeContains address lib then some lib
    else findAddrGo address rest

/-- `findAddressLibrary` (cmd/core_parser_libraries.go:187-203). -/
def findAddressLibrary (address : String) (libraries : List LibraryInfo) :
    Option LibraryInfo :=
  findAddrGo address libraries

/-- The integer range test of `addFaultAddressContext`
(cmd/core_parser_signal.go:159-162): `start, _ := ParseUint(...)`,
`end, _ := ParseUint(...)`, then `addr >= start && addr <= end`. -/
def intRangeContains (addr : Nat) (lib : LibraryInfo) : Bool :=
  goParseUintHexVal (trimPre0x lib.textStart) ≤ addr &&
  addr ≤ goParseUintHexVal (trimPre0x lib.textEnd)

/-- The library loop of `addFaultAddressContext`: first library whose
integer range contains the parsed fault address. -/
def findIntLibGo (addr : Nat) : List LibraryInfo → Option LibraryInfo
  | [] => none
  | lib :: rest =>
    if intRangeContains addr lib then some lib
    else findIntLibGo addr rest

/-- `addFaultAddressContext` (cmd/core_parser_signal.go:152-172): parse the
fault address (silent return on error), append `"(fault address in <lib>)"`
at the first integer-range match, else append
`"(fault address not in mapped memory)"` when a description exists. -/
def addFaultAddressContext (info : SignalInfo) (analysis : CoreAnalysis) :
    SignalInfo :=
  match goParseUintHex (trimPre0x info.faultAddress) with
  | none => info
  | some addr =>
    match findIntLibGo addr analysis.libraries with
    | some lib =>
      { info with signalDescription :=
          info.signalDescription ++ " (fault address in " ++ lib.name ++ ")" }
    | none =>
      if info.signalDescription ≠ "" then
        { info with signalDescription :=
            info.signalDescription ++ " (fault address not in mapped memory)" }
      else info

/-! ## Shared-library table parsing (cmd/core_parser_libraries.go)

The Go regexes are hand-compiled.  `parseSharedLibraries` splits its input on
newlines and applies
`(?m)^(0x[0-9a-f]+)\s+(0x[0-9a-f]+)\s+(\w+)\s+(.+?\.so[.0-9]*)` to each line;
on a newline-free line the `(?m)^` anchor admits only position 0.  All the
character-class runs are followed by characters outside the class, so the
greedy pluses never backtrack; the lazy `.+?` stops at the earliest `.so`. -/

/-- ASCII whitespace accepted by `unicode.IsSpace` (`strings.TrimSpace`);
the non-ASCII space code points cannot occur in the matched captures. -/
def chIsTrimSpace (c : Char) : Bool :=
  c = ' ' || c = '\t' || c = '\n' || c = '\x0b' || c = '\x0c' || c = '\r'

/-- `strings.TrimSpace`. -/
def strTrimSpace (s : String) : String :=
  String.mk (((s.data.dropWhile chIsTrimSpace).reverse.dropWhile chIsTrimSpace).reverse)

/-- Scan for the earliest `.so` occurrence strictly inside the lazy group:
returns the characters before it and the characters after it. -/
def dotSoScan : List Char → Option (List Char × List Char)
  | [] => none
  | c :: rest =>
    if startsWithCh (c :: rest) ['.', 's', 'o'] then some ([], rest.drop 2)
    else if c = '\n' then none
    else
      match dotSoScan rest with
      | none => none
      | some (pre, after) => some (c :: pre, after)

/-- The lazy tail group `(.+?\.so[.0-9]*)`: at least one `.`-class character,
then the earliest `.so`, then a greedy run of `[.0-9]`. -/
def lazyDotSoCapture : List Char → Option (List Char)
  | [] => none
  | c :: rest =>
    if c = '\n' then none
    else
      match dotSoScan rest with
      | none => none
      | some (pre, after) =>
        let ver := (spanCh (fun ch => ch = '.' || chIsDigit ch) after).1
        some (c :: (pre ++ ('.' :: 's' :: 'o' :: ver)))

/-- The whole library-line regex at position 0: returns the four captures
(start address, end address, load status, library path) or `none`. -/
def matchLibraryLine (line : String) : Option (String × String × String × String) :=
  match dropLit line.data ['0', 'x'] with
  | none => none
  | some r1 =>
    let (hex1, r2) := spanCh chIsHexLower r1
    if hex1.isEmpty then none
    else
      let (sp1, r3) := spanCh chIsSpace r2
      if sp1.isEmpty then none
      else
        match dropLit r3 ['0', 'x'] with
        | none => none
        | some r4 =>
          let (hex2, r5) := spanCh chIsHexLower r4
          if hex2.isEmpty then none
          else
            let (sp2, r6) := spanCh chIsSpace r5
            if sp2.isEmpty then none
            else
              let (w, r7) := spanCh chIsWord r6
              if w.isEmpty then none
              else
                let (sp3, r8) := spanCh chIsSpace r7
                if sp3.isEmpty then none
                else
                  match lazyDotSoCapture r8 with
                  | none => none
                  | some path =>
                    some (String.mk ('0' :: 'x' :: hex1),
                      String.mk ('0' :: 'x' :: hex2),
                      String.mk w, String.mk path)

/-- Leftmost match of `\.so[.]([0-9.]+)$`: the earliest `.so.` whose whole
remaining suffix is a non-empty run of `[0-9.]` (the `$` anchor kills any
shorter greedy retry, so a position either matches to the end or fails). -/
def verCapture : List Char → Option (List Char)
  | [] => none
  | c :: rest =>
    if startsWithCh (c :: rest) ['.', 's', 'o', '.'] then
      let tail := (c :: rest).drop 4
      if !tail.isEmpty && tail.all (fun ch => ch = '.' || chIsDigit ch) then
        some tail
      else verCapture rest
    else verCapture rest

/-- `filepath.Base`. -/
def pathBase (s : String) : String :=
  if s.data.isEmpty then "."
  else
    let trimmed := (s.data.reverse.dropWhile (fun c => c = '/')).reverse
    if trimmed.isEmpty then "/"
    else String.mk ((trimmed.reverse.takeWhile (fun c => c ≠ '/')).reverse)

/-- `getLibraryVersion` (cmd/core_parser_libraries.go:126-140): the trailing
`.so<N.N...>` suffix, else the first `-`-delimited base-name component that
is wholly digits and dots (`^[0-9.]+$`), else `""`. -/
def getLibraryVersion (libPath : String) : String :=
  match verCapture libPath.data with
  | some v => String.mk v
  | none =>
    match (splitCh '-' (pathBase libPath)).find?
        (fun part => !part.data.isEmpty &&
          part.data.all (fun ch => ch = '.' || chIsDigit ch)) with
    | some part => part
    | none => ""

/-- `/postgresql/.*\.so` : a `/postgresql/` occurrence followed (with no
intervening newline, since `.` excludes it) by `.so`. -/
def dotSoAfterNoNL : List Char → Bool
  | [] => false
  | c :: rest =>
    if startsWithCh (c :: rest) ['.', 's', 'o'] then true
    else if c = '\n' then false
    else dotSoAfterNoNL rest

/-- Scan for a `/postgresql/` start position whose remainder reaches `.so`. -/
def extPatternMatch : List Char → Bool
  | [] => false
  | c :: rest =>
    (startsWithCh (c :: rest) ("/postgresql/".data) &&
      dotSoAfterNoNL ((c :: rest).drop 12)) ||
    extPatternMatch rest

/-- `categorizeLibrary` (cmd/core_parser_libraries.go:112-119): first match
in the priority-ordered `libraryCategories` table (the other patterns are
unanchored literals/alternations, i.e. substring tests; `^/lib` is a prefix
test), defaulting to `"Other"`. -/
def categorizeLibrary (path : String) : String :=
  if strContains path "libpostgres.so" then "Core"
  else if extPatternMatch path.data then "Extension"
  else if strContains path "interconnect.so" then "Interconnect"
  else if strContains path "zlib" || strContains path "lz4" ||
      strContains path "zstd" || strContains path "bzip2" then "Compression"
  else if strContains path "ssl" || strContains path "crypto" ||
      strContains path "pam" || strContains path "krb5" ||
      strContains path "gssapi" || strContains path "ldap" ||
      strContains path "sasl" then "Security"
  else if strHasPre path "/lib" then "System"
  else if strContains path "libc" || strContains path "libstdc++" ||
      strContains path "libgcc" then "Runtime"
  else "Other"

/-- `parseSharedLibraries` (cmd/core_parser_libraries.go:78-105). -/
def parseSharedLibraries (output : String) : List LibraryInfo :=
  (splitCh '\n' output).filterMap (fun line =>
    match matchLibraryLine line with
    | none => none
    | some (startAddr, endAddr, loadStatus, libPath) =>
      some { name := strTrimSpace libPath
             startAddr := startAddr
             endAddr := endAddr
             version := getLibraryVersion libPath
             type := categorizeLibrary libPath
             isLoaded := loadStatus = "Yes"
             textStart := startAddr
             textEnd := endAddr })

/-! ## Process information (cmd/core_parser_info.go)

`parseBasicInfo` (lines 31-70) and `extractProcessInfo` (lines 76-139).
The `map[string]string` is embedded as an association list with
overwrite-on-insert; the Go `patterns` maps are iterated in unspecified
order, but every key is distinct, so a fixed insertion order is
observationally identical. -/

/-- Go `m[k] = v` (overwrite or append). -/
def mapPut : List (String × String) → String → String → List (String × String)
  | [], k, v => [(k, v)]
  | (k', v') :: rest, k, v =>
    if k' = k then (k', v) :: rest else (k', v') :: mapPut rest k v

/-- Go `v, ok := m[k]`. -/
def mapGet : List (String × String) → String → Option String
  | [], _ => none
  | (k', v') :: rest, k => if k' = k then some v' else mapGet rest k

/-- Go `m[k]` (zero value `""` when absent). -/
def mapGetD (m : List (String × String)) (k : String) : String :=
  (mapGet m k).getD ""

/-- Leftmost match of `<lit>\s+(\d+)`: scan for the literal, require at
least one whitespace then at least one digit; on a partial match resume the
scan one character further. -/
def scanLitSpaceDigits (lit : List Char) : List Char → Option (List Char)
  | [] => none
  | c :: rest =>
    (match dropLit (c :: rest) lit with
     | none => none
     | some r1 =>
       let (sp, r2) := spanCh chIsSpace r1
       if sp.isEmpty then none
       else
         let (ds, _) := spanCh chIsDigit r2
         if ds.isEmpty then none else some ds)
    |>.orElse (fun _ => scanLitSpaceDigits lit rest)

/-- Leftmost match of `<lit>(\d+)`. -/
def scanLitDigits (lit : List Char) : List Char → Option (List Char)
  | [] => none
  | c :: rest =>
    (match dropLit (c :: rest) lit with
     | none => none
     | some r1 =>
       let (ds, _) := spanCh chIsDigit r1
       if ds.isEmpty then none else some ds)
    |>.orElse (fun _ => scanLitDigits lit rest)

/-- Leftmost match of `\((\d+)\)`. -/
def scanParenDigits : List Char → Option (List Char)
  | [] => none
  | c :: rest =>
    (if c = '(' then
       let (ds, r2) := spanCh chIsDigit rest
       if ds.isEmpty then none
       else match r2 with
         | ')' :: _ => some ds
         | _ => none
     else none)
    |>.orElse (fun _ => scanParenDigits rest)

/-- One IPv4-shaped token `\d+\.\d+\.\d+\.\d+` at the current position:
returns the matched characters and the remainder. -/
def ipv4At (cs : List Char) : Option (List Char × List Char) :=
  let (d1, r1) := spanCh chIsDigit cs
  if d1.isEmpty then none
  else match r1 with
    | '.' :: r2 =>
      let (d2, r3) := spanCh chIsDigit r2
      if d2.isEmpty then none
      else match r3 with
        | '.' :: r4 =>
          let (d3, r5) := spanCh chIsDigit r4
          if d3.isEmpty then none
          else match r5 with
            | '.' :: r6 =>
              let (d4, r7) := spanCh chIsDigit r6
              if d4.isEmpty then none
              else some (d1 ++ '.' :: d2 ++ '.' :: d3 ++ '.' :: d4, r7)
            | _ => none
        | _ => none
    | _ => none

/-- Leftmost match of `(\d+\.\d+\.\d+\.\d+)`. -/
def scanIPv4 : List Char → Option (List Char)
  | [] => none
  | c :: rest =>
    (match ipv4At (c :: rest) with
     | some (ip, _) => some ip
     | none => none)
    |>.orElse (fun _ => scanIPv4 rest)

/-- Leftmost match of `\s(\d+\.\d+\.\d+\.\d+)\s*\(`
(the `ipRE` of cmd/core_parser_info.go:109). -/
def scanSpaceIPv4Paren : List Char → Option (List Char)
  | [] => none
  | c :: rest =>
    (if chIsSpace c then
       match ipv4At rest with
       | some (ip, r1) =>
         let (_, r2) := spanCh chIsSpace r1
         match r2 with
         | '(' :: _ => some ip
         | _ => none
       | none => none
     else none)
    |>.orElse (fun _ => scanSpaceIPv4Paren rest)

/-- Leftmost match of `created:\s+"([\d\-:T\sZ]+)"`. -/
def scanCreated : List Char → Option (List Char)
  | [] => none
  | c :: rest =>
    (match dropLit (c :: rest) ("created:".data) with
     | none => none
     | some r1 =>
       let (sp, r2) := spanCh chIsSpace r1
       if sp.isEmpty then none
       else match r2 with
         | '"' :: r3 =>
           let (body, r4) := spanCh
             (fun ch => chIsDigit ch || ch = '-' || ch = ':' || ch = 'T' ||
               chIsSpace ch || ch = 'Z') r3
           if body.isEmpty then none
           else match r4 with
             | '"' :: _ => some body
             | _ => none
         | _ => none)
    |>.orElse (fun _ => scanCreated rest)

/-- Store a capture under a key, with the `"N/A"` default of
cmd/core_parser_info.go:49 for a failed match. -/
def putOrNA (m : List (String × String)) (key : String)
    (res : Option (List Char)) : List (String × String) :=
  match res with
  | some v => mapPut m key (String.mk v)
  | none => mapPut m key "N/A"

/-- `parseBasicInfo` (cmd/core_parser_info.go:31-70): six pattern captures
with `"N/A"` defaults, a `core_time` capture with the same default, then an
unconditional description (the `database_id` key always exists, `"N/A"`
included) rendering every field. -/
def parseBasicInfo (fileOutput : String) : List (String × String) :=
  let cs := fileOutput.data
  let info : List (String × String) := []
  let info := putOrNA info "database_id" (scanLitSpaceDigits ("postgres:".data) cs)
  let info := putOrNA info "segment_id" (scanLitDigits ("seg".data) cs)
  let info := putOrNA info "connection_id" (scanLitDigits ("con".data) cs)
  let info := putOrNA info "command_id" (scanLitDigits ("cmd".data) cs)
  let info := putOrNA info "client_pid" (scanParenDigits cs)
  let info := putOrNA info "client_address" (scanIPv4 cs)
  let info := putOrNA info "core_time" (scanCreated cs)
  if (mapGet info "database_id").isSome then
    let info := mapPut info "description"
      ("Coordinator Write (Read-Only Mode), Database " ++ mapGetD info "database_id" ++
       ", Segment " ++ mapGetD info "segment_id" ++
       ", Connection " ++ mapGetD info "connection_id" ++
       ", Client " ++ mapGetD info "client_address" ++
       " (PID " ++ mapGetD info "client_pid" ++ ")")
    mapPut info "process_type" "Coordinator Write (Read-Only Mode)"
  else info

/-- `strings.Fields` worker: `cur` is the (reversed) word in progress. -/
def fieldsChAux : List Char → List Char → List (List Char)
  | [], cur => if cur.isEmpty then [] else [cur.reverse]
  | c :: rest, cur =>
    if chIsTrimSpace c then
      if cur.isEmpty then fieldsChAux rest []
      else cur.reverse :: fieldsChAux rest []
    else fieldsChAux rest (c :: cur)

/-- `strings.Fields`: maximal runs of non-whitespace. -/
def fieldsCh (cs : List Char) : List (List Char) := fieldsChAux cs []

/-- The `database_id` loop of `extractProcessInfo`
(cmd/core_parser_info.go:79-85): first whitespace-separated field of the
part before the first comma that is not the `postgres:` token. -/
def firstNonPostgresField : List (List Char) → Option (List Char)
  | [] => none
  | f :: fs =>
    if String.mk f = "postgres:" then firstNonPostgresField fs else some f

/-- The description-assembly chain of `extractProcessInfo`
(cmd/core_parser_info.go:115-134), translated if-by-if. -/
def descParts (m : List (String × String)) : List String :=
  let d : List String := []
  let d := if mapGetD m "process_type" ≠ "" then d ++ [mapGetD m "process_type"] else d
  let d := if mapGetD m "database_id" ≠ "" then
      d ++ ["Database " ++ mapGetD m "database_id"] else d
  let d := if mapGetD m "segment_id" ≠ "" then
      d ++ ["Segment " ++ mapGetD m "segment_id"] else d
  let d := if mapGetD m "connection_id" ≠ "" then
      d ++ ["Connection " ++ mapGetD m "connection_id"] else d
  let d := if mapGetD m "client_address" ≠ "" then
      (if mapGetD m "client_pid" ≠ "" then
        d ++ ["Client " ++ mapGetD m "client_address" ++
          " (PID " ++ mapGetD m "client_pid" ++ ")"]
      else d ++ ["Client " ++ mapGetD m "client_address"])
    else d
  d

/-- The same five components, stated as the specification reads: the fixed
field order with absent (empty) fields skipped. -/
def specDescFields (m : List (String × String)) : List String :=
  [if mapGetD m "process_type" ≠ "" then some (mapGetD m "process_type") else none,
   if mapGetD m "database_id" ≠ "" then
     some ("Database " ++ mapGetD m "database_id") else none,
   if mapGetD m "segment_id" ≠ "" then
     some ("Segment " ++ mapGetD m "segment_id") else none,
   if mapGetD m "connection_id" ≠ "" then
     some ("Connection " ++ mapGetD m "connection_id") else none,
   if mapGetD m "client_address" ≠ "" then
     (if mapGetD m "client_pid" ≠ "" then
       some ("Client " ++ mapGetD m "client_address" ++
         " (PID " ++ mapGetD m "client_pid" ++ ")")
     else some ("Client " ++ mapGetD m "client_address")) else none
  ].filterMap id

/-- The extraction phase of `extractProcessInfo`
(cmd/core_parser_info.go:77-113): runs only on a `postgres:`-prefixed
command line. -/
def extractPhase (cmdline : String) (info : List (String × String)) :
    List (String × String) :=
  if strHasPre cmdline "postgres:" then
    let firstPart := cmdline.data.takeWhile (fun c => c ≠ ',')
    let info :=
      match firstNonPostgresField (fieldsCh firstPart) with
      | some f => mapPut info "database_id" (strTrimSpace (String.mk f))
      | none => info
    let info :=
      if strContains cmdline "read_only coredw" then
        mapPut info "process_type" "Coordinator Write (Read-Only Mode)"
      else if strContains cmdline "coredw" then
        mapPut info "process_type" "Coordinator Write Process"
      else if strContains cmdline "corerd" then
        mapPut info "process_type" "Coordinator Read Process"
      else info
    let put := fun (m : List (String × String)) (key : String)
        (res : Option (List Char)) =>
      match res with
      | some v => mapPut m key (String.mk v)
      | none => m
    let info := put info "segment_id" (scanLitDigits ("seg".data) cmdline.data)
    let info := put info "connection_id" (scanLitDigits ("con".data) cmdline.data)
    let info := put info "command_id" (scanLitDigits ("cmd".data) cmdline.data)
    let info := put info "slice_id" (scanLitDigits ("slice".data) cmdline.data)
    let info := put info "client_pid" (scanParenDigits cmdline.data)
    let info := put info "client_address" (scanSpaceIPv4Paren cmdline.data)
    info
  else info

/-- `extractProcessInfo` (cmd/core_parser_info.go:76-139): extraction phase,
then the description assembly (which runs unconditionally and writes
`description` only when at least one component is present). -/
def extractProcessInfo (cmdline : String) (info : List (String × String)) :
    List (String × String) :=
  let info := extractPhase cmdline info
  let d := descParts info
  if d.length > 0 then mapPut info "description" (String.intercalate ", " d)
  else info

/-! ## Thread segmentation (cmd/core_parser_threads.go)

`parseThreads` (lines 159-193) scans the transcript line by line; a line
matching `threadRE` starts a new thread, a `#`-prefixed line matching
`frameRE` extends the current one.  The two regexes are hand-compiled below
with their leftmost-first submatch semantics (analysed pattern by pattern in
the doc comments). -/

/-- Optional group `\(Thread\s+(?:0x[0-9a-f]+)\s+` of `threadRE`: returns the
remainder on success. -/
def thGroupA (cs : List Char) : Option (List Char) :=
  match dropLit cs ("(Thread".data) with
  | none => none
  | some r1 =>
    let (sp, r2) := spanCh chIsSpace r1
    if sp.isEmpty then none
    else
      match dropLit r2 ['0', 'x'] with
      | none => none
      | some r3 =>
        let (hex, r4) := spanCh chIsHexLower r3
        if hex.isEmpty then none
        else
          let (sp2, r5) := spanCh chIsSpace r4
          if sp2.isEmpty then none else some r5

/-- Optional group `\(LWP\s+(\d+)\)` of `threadRE`: returns the LWP capture. -/
def thGroupB (cs : List Char) : Option (List Char) :=
  match dropLit cs ("(LWP".data) with
  | none => none
  | some r1 =>
    let (sp, r2) := spanCh chIsSpace r1
    if sp.isEmpty then none
    else
      let (ds, r3) := spanCh chIsDigit r2
      if ds.isEmpty then none
      else
        match r3 with
        | ')' :: _ => some ds
        | _ => none

/-- `threadRE = Thread\s+(\d+)\s+(?:\(Thread\s+(?:0x[0-9a-f]+)\s+)?(?:\(LWP\s+(\d+)\))?`
at one position.  Both trailing groups are optional, so the match succeeds as
soon as `Thread`, whitespace, digits, whitespace are present; the greedy
`\s+` runs abut non-whitespace successors, so they never backtrack, and a
matched first option is never retracted (nothing after the second option can
fail). -/
def threadHeadAt (cs : List Char) : Option (String × String) :=
  match dropLit cs ("Thread".data) with
  | none => none
  | some r1 =>
    let (sp1, r2) := spanCh chIsSpace r1
    if sp1.isEmpty then none
    else
      let (ds, r3) := spanCh chIsDigit r2
      if ds.isEmpty then none
      else
        let (sp2, r4) := spanCh chIsSpace r3
        if sp2.isEmpty then none
        else
          let r5 := match thGroupA r4 with
            | some r => r
            | none => r4
          match thGroupB r5 with
          | some lwp => some (String.mk ds, String.mk lwp)
          | none => some (String.mk ds, "")

/-- Leftmost `threadRE` match in a line (`FindStringSubmatch`). -/
def scanThreadHead : List Char → Option (String × String)
  | [] => none
  | c :: rest =>
    (threadHeadAt (c :: rest)).orElse (fun _ => scanThreadHead rest)

/-- One function/arguments attempt of `(\S+)\s*\(([^)]*)\)`: with the
function fixed, skip spaces, require `(`, take the greedy `[^)]*` run,
require `)`. -/
def fnTry (w rest : List Char) : Option (String × String) :=
  let r1 := (spanCh chIsSpace rest).2
  match r1 with
  | '(' :: r2 =>
    let (args, r3) := spanCh (fun ch => ch ≠ ')') r2
    match r3 with
    | ')' :: _ => some (String.mk w, String.mk args)
    | _ => none
  | _ => none

/-- Backtracking over the greedy `(\S+)`: try the full non-space run first,
then successively shorter prefixes (each shorter prefix is followed by a
non-space character, so its `\s*` is empty and `\(` must match there). -/
def fnBacktrack (run after : List Char) : Nat → Option (String × String)
  | 0 => none
  | j + 1 =>
    (fnTry (run.take (j + 1)) (run.drop (j + 1) ++ after)).orElse
      (fun _ => fnBacktrack run after j)

/-- `frameRE = #(\d+)\s+([^in]+)in\s+(\S+)\s*\(([^)]*)\)` at one position.
The `\s+([^in]+)in` segment: whitespace is itself in `[^in]`, so every
greedy split checks `in` at the same spot — the first `i`/`n` character
after the spaces; when the non-space location run is empty the greedy `\s+`
cedes exactly its last space to `[^in]+`. -/
def frameAt (cs : List Char) : Option (String × String × String × String) :=
  match cs with
  | '#' :: r1 =>
    let (ds, r2) := spanCh chIsDigit r1
    if ds.isEmpty then none
    else
      let (sp, r3) := spanCh chIsSpace r2
      if sp.isEmpty then none
      else
        let (ell, r4) := spanCh (fun ch => ch ≠ 'i' && ch ≠ 'n') r3
        match r4 with
        | 'i' :: 'n' :: r5 =>
          let loc? : Option (List Char) :=
            if ell.isEmpty then
              if 2 ≤ sp.length then
                match sp.getLast? with
                | some c => some [c]
                | none => none
              else none
            else some ell
          match loc? with
          | none => none
          | some loc =>
            let (sp2, r6) := spanCh chIsSpace r5
            if sp2.isEmpty then none
            else
              let (wrun, r7) := spanCh (fun ch => !chIsSpace ch) r6
              if wrun.isEmpty then none
              else
                match fnBacktrack wrun r7 wrun.length with
                | some (fn, args) =>
                  some (String.mk ds, String.mk loc, fn, args)
                | none => none
        | _ => none
  | _ => none

/-- Leftmost `frameRE` match in a line. -/
def scanFrame : List Char → Option (String × String × String × String)
  | [] => none
  | c :: rest => (frameAt (c :: rest)).orElse (fun _ => scanFrame rest)

/-- Leftmost match of `at ([^:]+):(\d+)`: the `[^:]+` run is maximal (the
class excludes the following `:`), so no within-position backtracking
exists. -/
def scanAtFileLine : List Char → Option (List Char × List Char)
  | [] => none
  | c :: rest =>
    (match dropLit (c :: rest) ("at ".data) with
     | none => none
     | some r1 =>
       let (file, r2) := spanCh (fun ch => ch ≠ ':') r1
       if file.isEmpty then none
       else
         match r2 with
         | ':' :: r3 =>
           let (ds, _) := spanCh chIsDigit r3
           if ds.isEmpty then none else some (file, ds)
         | _ => none)
    |>.orElse (fun _ => scanAtFileLine rest)

/-- Leftmost match of `from ([^)]+)`. -/
def scanFromModule : List Char → Option (List Char)
  | [] => none
  | c :: rest =>
    (match dropLit (c :: rest) ("from ".data) with
     | none => none
     | some r1 =>
       let (m, _) := spanCh (fun ch => ch ≠ ')') r1
       if m.isEmpty then none else some m)
    |>.orElse (fun _ => scanFromModule rest)

/-- Leftmost match of `locals = {([^}]+)}`. -/
def scanLocalsBlock : List Char → Option (List Char)
  | [] => none
  | c :: rest =>
    (match dropLit (c :: rest) ("locals = \x7b".data) with
     | none => none
     | some r1 =>
       let (body, r2) := spanCh (fun ch => ch ≠ '}') r1
       if body.isEmpty then none
       else
         match r2 with
         | '}' :: _ => some body
         | _ => none)
    |>.orElse (fun _ => scanLocalsBlock rest)

/-- `strings.SplitN(pair, "=", 2)`: the part before the first `=` and the
part after it, or nothing when no `=` occurs. -/
def splitEq2 (cs : List Char) : Option (List Char × List Char) :=
  let (before, r) := spanCh (fun ch => ch ≠ '=') cs
  match r with
  | '=' :: after => some (before, after)
  | _ => none

/-- `parseLocals` (cmd/core_parser_base.go:43-53): split on commas, split
each pair at its first `=`, trim both sides into the map. -/
def parseLocals (localsStr : String) : List (String × String) :=
  (splitCh ',' localsStr).foldl
    (fun m pair =>
      match splitEq2 pair.data with
      | some (k, v) =>
        mapPut m (strTrimSpace (String.mk k)) (strTrimSpace (String.mk v))
      | none => m)
    []

/-- The value `strconv.Atoi` yields for an all-digit capture under the
discarded-error convention (`, _ =`): the clamped 64-bit value.  No claim
reads `lineNumber`; the field is carried for fidelity. -/
def goAtoiDigits (ds : List Char) : Int :=
  let v := ds.foldl (fun acc c => acc * 10 + (c.toNat - '0'.toNat)) 0
  if v ≤ 2 ^ 63 - 1 then (v : Int) else (2 ^ 63 - 1 : Int)

/-- `parseStackFrame` (cmd/core_parser_threads.go:72-101): the frame
regex, then the optional source-location, module and locals extractions. -/
def parseStackFrame (line : String) : Option StackFrame :=
  match scanFrame line.data with
  | none => none
  | some (num, loc, fn, args) =>
    let f : StackFrame :=
      { frameNum := num, location := strTrimSpace loc,
        function := fn, arguments := args }
    let f := match scanAtFileLine line.data with
      | some (file, ds) =>
        { f with sourceFile := String.mk file, lineNumber := goAtoiDigits ds }
      | none => f
    let f := match scanFromModule line.data with
      | some m => { f with module := pathBase (String.mk m) }
      | none => f
    let f := match scanLocalsBlock line.data with
      | some body => { f with locals := parseLocals (String.mk body) }
      | none => f
    some f

/-- `determineThreadRole` (cmd/core_parser_threads.go:133-152): signal
trampoline first, then the interconnect RX/TX frame checks, else `""`. -/
def determineThreadRole (backtrace : List StackFrame) : String :=
  if backtrace.any (fun f => strContains f.function "SigillSigsegvSigbus") then
    "Signal Handler"
  else
    match backtrace.find? (fun f =>
        strContains f.function "rxThreadFunc" ||
        strContains f.function "txThreadFunc") with
    | some f =>
      if strContains f.function "rxThreadFunc" then "Interconnect RX"
      else "Interconnect TX"
    | none => ""

/-- The line loop of `parseThreads` (cmd/core_parser_threads.go:164-189):
a `threadRE` match finalizes the current thread (role assignment) and starts
a new one (`IsCrashed` iff the line contains `"* "`); a `#`-prefixed line
extends the current thread by its parsed frame; other lines are ignored. -/
def ptGo : List String → Option ThreadInfo → List ThreadInfo
  | [], cur =>
    match cur with
    | some t => [{ t with name := determineThreadRole t.backtrace }]
    | none => []
  | line :: rest, cur =>
    match scanThreadHead line.data with
    | some (tid, lwp) =>
      let newT : ThreadInfo :=
        { threadID := tid, lwpID := lwp, isCrashed := strContains line "* " }
      match cur with
      | some t =>
        { t with name := determineThreadRole t.backtrace } :: ptGo rest (some newT)
      | none => ptGo rest (some newT)
    | none =>
      match cur with
      | some t =>
        if strHasPre line "#" then
          match parseStackFrame line with
          | some f => ptGo rest (some { t with backtrace := t.backtrace ++ [f] })
          | none => ptGo rest (some t)
        else ptGo rest (some t)
      | none => ptGo rest none

/-- `parseThreads` (cmd/core_parser_threads.go:159-193): split into lines,
run the loop, deduplicate by thread id. -/
def parseThreads (output : String) : List ThreadInfo :=
  deduplicateThreads (ptGo (splitCh '\n' output) none)

/-- Newline join (`strings.Join(lines, "\n")`-shaped input builder used to
state the segmentation claims). -/
def joinNL : List String → String
  | [] => ""
  | [s] => s
  | s :: rest => s ++ "\n" ++ joinNL rest

/-- The number of crashed threads contributed by the in-progress thread. -/
def curCrashVal : Option ThreadInfo → Nat
  | none => 0
  | some t => if t.isCrashed then 1 else 0

/-! # Theorems -/

theorem keepFirst_nil (key : α → κ) : keepFirst key [] = [] := by
  simp [keepFirst]

theorem keepFirst_cons (key : α → κ) (x : α) (xs : List α) :
    keepFirst key (x :: xs)
      = x :: keepFirst key (xs.filter fun y => decide (key y ≠ key x)) := by
  simp [keepFirst]

/-- The dedup loop with `seen` pre-seeded equals the reference recursion on
the input without the already-seen keys. -/
theorem dedupGo_eq_keepFirst (key : α → κ) (seen : List κ) (l : List α) :
    dedupGo key seen l = keepFirst key (l.filter fun x => decide (key x ∉ seen)) := by
  induction l generalizing seen with
  | nil => simp [dedupGo, keepFirst]
  | cons x xs ih =>
    by_cases hx : key x ∈ seen
    · have hf : (decide (key x ∉ seen)) = false := by simp [hx]
      simp only [dedupGo, if_pos hx, List.filter_cons, hf, if_neg]
      rw [ih]
      simp
    · have hf : (decide (key x ∉ seen)) = true := by simp [hx]
      simp only [dedupGo, if_neg hx, List.filter_cons, hf, if_pos]
      rw [ih, keepFirst_cons, List.filter_filter]
      congr 1
      congr 1
      apply List.filter_congr
      intro y _
      by_cases h1 : key y = key x <;> by_cases h2 : key y ∈ seen <;>
        simp [h1, h2]

/-- The Go dedup loop implements exactly the keep-first-occurrence recursion. -/
theorem dedupByKey_eq_keepFirst (key : α → κ) (l : List α) :
    dedupByKey key l = keepFirst key l := by
  unfold dedupByKey
  rw [dedupGo_eq_keepFirst]
  congr 1
  simp

/-- Filtering away one key class commutes with keep-first deduplication. -/
theorem keepFirst_filter_comm (key : α → κ) (k : κ) :
    ∀ (n : Nat) (l : List α), l.length ≤ n →
      (keepFirst key l).filter (fun y => decide (key y ≠ k))
        = keepFirst key (l.filter fun y => decide (key y ≠ k)) := by
  intro n
  induction n with
  | zero =>
    intro l hl
    have : l = [] := List.length_eq_zero.mp (Nat.le_zero.mp hl)
    subst this
    simp [keepFirst_nil]
  | succ n ih =>
    intro l hl
    match l with
    | [] => simp [keepFirst_nil]
    | x :: xs =>
      by_cases hx : key x = k
      · rw [keepFirst_cons]
        rw [List.filter_cons_of_neg (by simp [hx]), List.filter_cons_of_neg (by simp [hx])]
        rw [ih _ (by
          calc (xs.filter fun y => decide (key y ≠ key x)).length ≤ xs.length :=
                List.length_filter_le _ _
            _ ≤ n := Nat.le_of_succ_le_succ hl)]
        congr 1
        rw [List.filter_filter, List.filter_congr]
        intro y _
        by_cases h1 : key y = k <;> simp [h1, hx]
      · rw [keepFirst_cons]
        rw [List.filter_cons_of_pos (by simp [hx]), List.filter_cons_of_pos (by simp [hx])]
        rw [keepFirst_cons]
        congr 1
        rw [ih _ (by
          calc (xs.filter fun y => decide (key y ≠ key x)).length ≤ xs.length :=
                List.length_filter_le _ _
            _ ≤ n := Nat.le_of_succ_le_succ hl)]
        rw [List.filter_filter, List.filter_filter]
        congr 1
        apply List.filter_congr
        intro y _
        by_cases h1 : key y = k <;> by_cases h2 : key y = key x <;> simp [h1, h2]

/-- Keep-first deduplication is idempotent. -/
theorem keepFirst_idem_aux (key : α → κ) :
    ∀ (n : Nat) (l : List α), l.length ≤ n →
      keepFirst key (keepFirst key l) = keepFirst key l := by
  intro n
  induction n with
  | zero =>
    intro l hl
    have : l = [] := List.length_eq_zero.mp (Nat.le_zero.mp hl)
    subst this
    simp [keepFirst_nil]
  | succ n ih =>
    intro l hl
    match l with
    | [] => simp [keepFirst_nil]
    | x :: xs =>
      rw [keepFirst_cons, keepFirst_cons]
      congr 1
      have hlen : (xs.filter fun y => decide (key y ≠ key x)).length ≤ n := by
        calc (xs.filter fun y => decide (key y ≠ key x)).length ≤ xs.length :=
              List.length_filter_le _ _
          _ ≤ n := Nat.le_of_succ_le_succ hl
      rw [keepFirst_filter_comm key (key x) n _ hlen]
      rw [List.filter_filter]
      have heq : (fun a => decide (key a ≠ key x) && decide (key a ≠ key x))
          = (fun a => decide (key a ≠ key x)) := by
        funext a
        by_cases h : key a = key x <;> simp [h]
      rw [heq]
      exact ih _ hlen

/-- Keep-first deduplication returns a subsequence of its input. -/
theorem keepFirst_sublist (key : α → κ) :
    ∀ (n : Nat) (l : List α), l.length ≤ n → (keepFirst key l).Sublist l := by
  intro n
  induction n with
  | zero =>
    intro l hl
    have : l = [] := List.length_eq_zero.mp (Nat.le_zero.mp hl)
    subst this
    simp [keepFirst_nil]
  | succ n ih =>
    intro l hl
    match l with
    | [] => simp [keepFirst_nil]
    | x :: xs =>
      rw [keepFirst_cons]
      apply List.Sublist.cons₂
      have hlen : (xs.filter fun y => decide (key y ≠ key x)).length ≤ n := by
        calc (xs.filter fun y => decide (key y ≠ key x)).length ≤ xs.length :=
              List.length_filter_le _ _
          _ ≤ n := Nat.le_of_succ_le_succ hl
      exact (ih _ hlen).trans (List.filter_sublist _)

/-- Two keys inducing the same equality classes on a list give the same
keep-first deduplication. -/
theorem keepFirst_key_congr (key₁ : α → κ) {κ' : Type} [DecidableEq κ']
    (key₂ : α → κ') :
    ∀ (n : Nat) (l : List α), l.length ≤ n →
      (∀ x ∈ l, ∀ y ∈ l, (key₁ x = key₁ y ↔ key₂ x = key₂ y)) →
      keepFirst key₁ l = keepFirst key₂ l := by
  intro n
  induction n with
  | zero =>
    intro l hl _
    have : l = [] := List.length_eq_zero.mp (Nat.le_zero.mp hl)
    subst this
    simp [keepFirst_nil]
  | succ n ih =>
    intro l hl hcong
    match l with
    | [] => simp [keepFirst_nil]
    | x :: xs =>
      rw [keepFirst_cons, keepFirst_cons]
      congr 1
      have hfeq : (xs.filter fun y => decide (key₁ y ≠ key₁ x))
          = (xs.filter fun y => decide (key₂ y ≠ key₂ x)) := by
        apply List.filter_congr
        intro y hy
        have := hcong y (List.mem_cons_of_mem _ hy) x (List.mem_cons_self _ _)
        by_cases h : key₁ y = key₁ x
        · simp [h, this.mp h]
        · have h2 : ¬ key₂ y = key₂ x := fun hc => h (this.mpr hc)
          simp [h, h2]
      rw [hfeq]
      apply ih
      · calc (xs.filter fun y => decide (key₂ y ≠ key₂ x)).length ≤ xs.length :=
              List.length_filter_le _ _
          _ ≤ n := Nat.le_of_succ_le_succ hl
      · intro a ha b hb
        exact hcong a (List.mem_cons_of_mem _ (List.mem_of_mem_filter ha))
          b (List.mem_cons_of_mem _ (List.mem_of_mem_filter hb))

/-- Splitting at a separator absent from the left parts is unambiguous. -/
theorem sep_split_unique :
    ∀ (A C B D : List Char), ':' ∉ A → ':' ∉ C →
      A ++ ':' :: B = C ++ ':' :: D → A = C ∧ B = D := by
  intro A
  induction A with
  | nil =>
    intro C B D _ hC h
    match C with
    | [] => simpa using h
    | c :: C' =>
      simp only [List.nil_append, List.cons_append, List.cons.injEq] at h
      exact absurd (h.1 ▸ List.mem_cons_self c C') (by simp_all)
  | cons a A' ih =>
    intro C B D hA hC h
    match C with
    | [] =>
      simp only [List.cons_append, List.nil_append, List.cons.injEq] at h
      exact absurd (h.1 ▸ List.mem_cons_self a A') (by simp_all)
    | c :: C' =>
      simp only [List.cons_append, List.cons.injEq] at h
      have := ih C' B D (fun hm => hA (List.mem_cons_of_mem _ hm))
        (fun hm => hC (List.mem_cons_of_mem _ hm)) h.2
      exact ⟨by rw [h.1, this.1], this.2⟩

/-- On colon-free frames the Sprintf key and the field triple induce the
same identity. -/
theorem frameKey_eq_iff (f g : StackFrame) (hf : colonFree f) (hg : colonFree g) :
    frameKey f = frameKey g ↔ tripleKey f = tripleKey g := by
  constructor
  · intro h
    have hd := congrArg String.data h
    simp only [frameKey, String.data_append, List.append_assoc,
      List.singleton_append] at hd
    obtain ⟨h1, h2⟩ := sep_split_unique _ _ _ _ hf.1 hg.1 hd
    obtain ⟨h3, h4⟩ := sep_split_unique _ _ _ _ hf.2.1 hg.2.1 h2
    unfold tripleKey
    rw [String.ext h1, String.ext h3, String.ext h4]
  · intro h
    unfold tripleKey at h
    have h1 : f.function = g.function := congrArg Prod.fst h
    have h2 : f.location = g.location := congrArg (fun p => p.2.1) h
    have h3 : f.module = g.module := congrArg (fun p => p.2.2) h
    unfold frameKey
    rw [h1, h2, h3]

/-- A string of the form `"SIGNAL_" ++ t` is never empty. -/
theorem signalFallback_ne_empty (t : String) : "SIGNAL_" ++ t ≠ "" := by
  intro h
  have hd := congrArg String.data h
  simp [String.data_append] at hd

/-- A successful table lookup returns one of the table's values. -/
theorem sigLookup_mem_values (t : List (Int × String)) (n : Int) (v : String)
    (h : sigLookup t n = some v) : v ∈ t.map Prod.snd := by
  induction t with
  | nil => simp [sigLookup] at h
  | cons e rest ih =>
    obtain ⟨k, w⟩ := e
    by_cases hk : n = k
    · simp only [sigLookup, if_pos hk, Option.some.injEq] at h
      simp [← h]
    · simp only [sigLookup, if_neg hk] at h
      simp [ih h]

/-- Every value in the `signalMap` table is a non-empty string. -/
theorem signalMap_values_ne_empty (n : Int) (name : String)
    (h : signalMap n = some name) : name ≠ "" := by
  have hmem := sigLookup_mem_values signalTable n name h
  have hall : ∀ v ∈ signalTable.map Prod.snd, v ≠ "" := by decide
  exact hall name hmem

/-- Removing one keyed entry does not change lookups at other keys. -/
theorem sigLookup_skip_entry (t₁ t₂ : List (Int × String)) (k : Int) (v : String)
    (n : Int) (h : n ≠ k) :
    sigLookup (t₁ ++ (k, v) :: t₂) n = sigLookup (t₁ ++ t₂) n := by
  induction t₁ with
  | nil => simp [sigLookup, if_neg h]
  | cons e rest ih =>
    obtain ⟨k', w⟩ := e
    by_cases hk : n = k' <;> simp [sigLookup, hk, ih]

/-- `getSignalName` never yields the empty string, for any signal number. -/
theorem getSignalName_ne_empty (n : Int) : getSignalName n ≠ "" := by
  unfold getSignalName
  cases h : signalMap n with
  | some name => exact signalMap_values_ne_empty n name h
  | none => exact signalFallback_ne_empty _

/-- C5: `getSignalName` (cmd/core_parser_signal.go:72-78) is total and never
returns the empty string: for every non-negative signal number it returns the
table's canonical POSIX name when the number is in `signalMap` and
`"SIGNAL_<n>"` otherwise; consequently any `SignalInfo` whose non-zero
`SignalNumber` was resolved through `getSignalName` has a non-empty
`SignalName`. -/
theorem getSignalName_total_nonempty :
    (∀ n : Int, 0 ≤ n →
      getSignalName n ≠ "" ∧
      (∀ name, signalMap n = some name → getSignalName n = name) ∧
      (signalMap n = none → getSignalName n = "SIGNAL_" ++ toString n)) ∧
    (∀ info : SignalInfo, info.signalNumber ≠ 0 →
      info.signalName = getSignalName info.signalNumber →
      info.signalName ≠ "") := by
  constructor
  · intro n _
    refine ⟨getSignalName_ne_empty n, ?_, ?_⟩
    · intro name h
      unfold getSignalName
      rw [h]
    · intro h
      unfold getSignalName
      rw [h]
  · intro info _ h
    rw [h]
    exact getSignalName_ne_empty _

/-- Witness for C5 at concrete inputs: signal 11 (in the table) and
signal 99 (fallback), and a concrete `SignalInfo` resolved through
`getSignalName`. -/
theorem getSignalName_total_nonempty_witness :
    getSignalName 11 ≠ "" ∧
    getSignalName 11 = "SIGSEGV" ∧
    getSignalName 99 = "SIGNAL_" ++ toString (99 : Int) ∧
    ({ signalNumber := 11, signalName := "SIGSEGV" } : SignalInfo).signalName ≠ "" :=
  ⟨(getSignalName_total_nonempty.1 11 (by decide)).1,
   (getSignalName_total_nonempty.1 11 (by decide)).2.1 "SIGSEGV" (by decide),
   (getSignalName_total_nonempty.1 99 (by decide)).2.2 (by decide),
   getSignalName_total_nonempty.2
     { signalNumber := 11, signalName := "SIGSEGV" } (by decide) (by decide)⟩

/-- C10 counterexample: the two `getSignalName` implementations disagree at
signal 7 — the `signalMap`-backed one (cmd/core_parser_signal.go) knows
SIGBUS, the local-table one (cmd/core_parser.go:165-184) does not. -/
theorem getSignalName_variants_differ_at_7 :
    getSignalName 7 = "SIGBUS" ∧
    getSignalNameCoreParser 7 = "SIGNAL_7" ∧
    getSignalName 7 ≠ getSignalNameCoreParser 7 := by
  refine ⟨by decide, by decide, by decide⟩

/-- C10 (amended): the two `getSignalName` implementations agree at every
signal number other than 7 (where only `signalMap` has the SIGBUS entry). -/
theorem getSignalName_variants_agree (n : Int) (h : n ≠ 7) :
    getSignalName n = getSignalNameCoreParser n := by
  unfold getSignalName getSignalNameCoreParser signalMap
  have ht : signalTable =
      [(1, "SIGHUP"), (2, "SIGINT"), (3, "SIGQUIT"), (4, "SIGILL"),
       (6, "SIGABRT")] ++ (7, "SIGBUS") ::
      [(8, "SIGFPE"), (9, "SIGKILL"), (11, "SIGSEGV"), (13, "SIGPIPE"),
       (14, "SIGALRM"), (15, "SIGTERM")] := rfl
  have hl : signalsLocalTable =
      [(1, "SIGHUP"), (2, "SIGINT"), (3, "SIGQUIT"), (4, "SIGILL"),
       (6, "SIGABRT")] ++
      [(8, "SIGFPE"), (9, "SIGKILL"), (11, "SIGSEGV"), (13, "SIGPIPE"),
       (14, "SIGALRM"), (15, "SIGTERM")] := rfl
  rw [ht, hl, sigLookup_skip_entry _ _ _ _ _ h]

/-- Witness for the amended C10 at a concrete signal number. -/
theorem getSignalName_variants_agree_witness :
    getSignalName 11 = getSignalNameCoreParser 11 :=
  getSignalName_variants_agree 11 (by decide)

/-- C7 counterexample: `deduplicateStackTrace` keys frames by the colon-joined
string `function:location:module`, which conflates the distinct identity
triples `("a:b","c","")` and `("a","b:c","")` — the second frame is dropped
even though its (function, location, module) triple differs from the first's,
so the output is not the keep-first-per-triple subsequence the claim states. -/
theorem dedupStackTrace_not_triple_identity :
    deduplicateStackTrace
        [{ function := "a:b", location := "c" }, { function := "a", location := "b:c" }]
      = [{ function := "a:b", location := "c" }] ∧
    tripleKey { function := "a:b", location := "c" }
      ≠ tripleKey { function := "a", location := "b:c" } ∧
    deduplicateStackTrace
        [{ function := "a:b", location := "c" }, { function := "a", location := "b:c" }]
      ≠ keepFirst tripleKey
        [{ function := "a:b", location := "c" }, { function := "a", location := "b:c" }] := by
  refine ⟨by decide, by decide, ?_⟩
  rw [← dedupByKey_eq_keepFirst]
  decide

/-- C7 (amended): thread and stack-frame deduplication are idempotent and
keep the first occurrence of each identity key as a subsequence of the input;
the thread key is `ThreadID` as the claim states, but the frame key is the
colon-joined string `function:location:module`, which coincides with the
(function, location, module) triple only when those fields are colon-free. -/
theorem dedup_idempotent_keepFirst :
    (∀ ts : List ThreadInfo,
      deduplicateThreads (deduplicateThreads ts) = deduplicateThreads ts) ∧
    (∀ fs : List StackFrame,
      deduplicateStackTrace (deduplicateStackTrace fs) = deduplicateStackTrace fs) ∧
    (∀ ts : List ThreadInfo,
      deduplicateThreads ts = keepFirst (fun t => t.threadID) ts ∧
      (deduplicateThreads ts).Sublist ts) ∧
    (∀ fs : List StackFrame,
      deduplicateStackTrace fs = keepFirst frameKey fs ∧
      (deduplicateStackTrace fs).Sublist fs) ∧
    (∀ fs : List StackFrame, (∀ f ∈ fs, colonFree f) →
      deduplicateStackTrace fs = keepFirst tripleKey fs) := by
  refine ⟨?_, ?_, ?_, ?_, ?_⟩
  · intro ts
    unfold deduplicateThreads
    rw [dedupByKey_eq_keepFirst, dedupByKey_eq_keepFirst]
    exact keepFirst_idem_aux _ ts.length ts le_rfl
  · intro fs
    unfold deduplicateStackTrace
    rw [dedupByKey_eq_keepFirst, dedupByKey_eq_keepFirst]
    exact keepFirst_idem_aux _ fs.length fs le_rfl
  · intro ts
    unfold deduplicateThreads
    rw [dedupByKey_eq_keepFirst]
    exact ⟨rfl, keepFirst_sublist _ ts.length ts le_rfl⟩
  · intro fs
    unfold deduplicateStackTrace
    rw [dedupByKey_eq_keepFirst]
    exact ⟨rfl, keepFirst_sublist _ fs.length fs le_rfl⟩
  · intro fs h
    unfold deduplicateStackTrace
    rw [dedupByKey_eq_keepFirst]
    exact keepFirst_key_congr frameKey tripleKey fs.length fs le_rfl
      (fun x hx y hy => frameKey_eq_iff x y (h x hx) (h y hy))

theorem lookG_groupAdd_same (m : List (String × List CoreAnalysis))
    (k : String) (a : CoreAnalysis) :
    lookG (groupAdd m k a) k = lookG m k ++ [a] := by
  induction m with
  | nil => simp [groupAdd, lookG]
  | cons e rest ih =>
    obtain ⟨k', g⟩ := e
    by_cases hk : k' = k
    · simp [groupAdd, lookG, hk]
    · simp [groupAdd, lookG, hk, ih]

theorem lookG_groupAdd_other (m : List (String × List CoreAnalysis))
    (k k' : String) (a : CoreAnalysis) (h : k' ≠ k) :
    lookG (groupAdd m k a) k' = lookG m k' := by
  induction m with
  | nil =>
    simp only [groupAdd, lookG]
    rw [if_neg (fun hc => h hc.symm)]
  | cons e rest ih =>
    obtain ⟨k'', g⟩ := e
    by_cases hk : k'' = k
    · subst hk
      have hne : ¬ (k'' = k') := fun hc => h hc.symm
      simp only [groupAdd, if_pos rfl, lookG]
      rw [if_neg hne, if_neg hne]
    · simp only [groupAdd, if_neg hk, lookG]
      by_cases hk2 : k'' = k'
      · rw [if_pos hk2, if_pos hk2]
      · rw [if_neg hk2, if_neg hk2]
        exact ih

theorem keys_groupAdd (m : List (String × List CoreAnalysis))
    (k : String) (a : CoreAnalysis) :
    (groupAdd m k a).map Prod.fst =
      if k ∈ m.map Prod.fst then m.map Prod.fst else m.map Prod.fst ++ [k] := by
  induction m with
  | nil => simp [groupAdd]
  | cons e rest ih =>
    obtain ⟨k', g⟩ := e
    by_cases hk : k' = k
    · subst hk
      simp [groupAdd]
    · have hkk : ¬ (k = k') := fun hc => hk hc.symm
      simp only [groupAdd, if_neg hk, List.map_cons]
      by_cases hmem : k ∈ rest.map Prod.fst
      · rw [ih, if_pos hmem, if_pos (by simp [hmem])]
      · rw [ih, if_neg hmem, if_neg (by simp [hmem, hkk])]
        simp

theorem lookG_of_mem_nodup (m : List (String × List CoreAnalysis))
    (k : String) (g : List CoreAnalysis)
    (hnd : (m.map Prod.fst).Nodup) (hmem : (k, g) ∈ m) :
    lookG m k = g := by
  induction m with
  | nil => simp at hmem
  | cons e rest ih =>
    obtain ⟨k', g'⟩ := e
    rw [List.map_cons] at hnd
    have hnotin : k' ∉ rest.map Prod.fst := (List.nodup_cons.mp hnd).1
    have hndrest : (rest.map Prod.fst).Nodup := (List.nodup_cons.mp hnd).2
    rcases List.mem_cons.mp hmem with heq | htail
    · have h1 : k = k' := congrArg Prod.fst heq
      have h2 : g = g' := congrArg Prod.snd heq
      simp [lookG, h1.symm, h2]
    · have hkmem : k ∈ rest.map Prod.fst := List.mem_map.mpr ⟨(k, g), htail, rfl⟩
      have hne : ¬ (k' = k) := fun hc => hnotin (hc ▸ hkmem)
      simp only [lookG, if_neg hne]
      exact ih hndrest htail

theorem mem_keys_of_lookG_ne (m : List (String × List CoreAnalysis))
    (k : String) (h : lookG m k ≠ []) : k ∈ m.map Prod.fst := by
  induction m with
  | nil => simp [lookG] at h
  | cons e rest ih =>
    obtain ⟨k', g⟩ := e
    by_cases hk : k' = k
    · simp [hk]
    · simp only [lookG, if_neg hk] at h
      simp [ih h]

/-- Invariant of the grouping fold: keys stay distinct and the group stored
under each key is exactly the filter of the processed analyses with that
signature. -/
theorem groupFold_inv (as : List CoreAnalysis) :
    ∀ (m : List (String × List CoreAnalysis)) (p : List CoreAnalysis),
      (m.map Prod.fst).Nodup →
      (∀ k, lookG m k = p.filter (fun a => decide (crashSignature a = k))) →
      ((as.foldl (fun g a => groupAdd g (crashSignature a) a) m).map Prod.fst).Nodup ∧
      (∀ k, lookG (as.foldl (fun g a => groupAdd g (crashSignature a) a) m) k
        = (p ++ as).filter (fun a => decide (crashSignature a = k))) := by
  induction as with
  | nil =>
    intro m p hnd hchar
    simpa using ⟨hnd, hchar⟩
  | cons a rest ih =>
    intro m p hnd hchar
    simp only [List.foldl_cons]
    have hnd' : ((groupAdd m (crashSignature a) a).map Prod.fst).Nodup := by
      rw [keys_groupAdd]
      by_cases hmem : crashSignature a ∈ m.map Prod.fst
      · simp [hmem, hnd]
      · simp [hmem, hnd, List.nodup_append]
    have hchar' : ∀ k, lookG (groupAdd m (crashSignature a) a) k
        = (p ++ [a]).filter (fun x => decide (crashSignature x = k)) := by
      intro k
      by_cases hk : crashSignature a = k
      · subst hk
        rw [lookG_groupAdd_same, hchar]
        simp
      · rw [lookG_groupAdd_other _ _ _ _ (fun hc => hk hc.symm), hchar]
        simp [hk]
    have := ih (groupAdd m (crashSignature a) a) (p ++ [a]) hnd' hchar'
    simpa using this

/-- The crash groups of a batch: distinct keys, and the group under each key
is the subsequence of analyses bearing that signature. -/
theorem crashGroupsOf_char (as : List CoreAnalysis) :
    ((crashGroupsOf as).map Prod.fst).Nodup ∧
    (∀ k, lookG (crashGroupsOf as) k
      = as.filter (fun a => decide (crashSignature a = k))) := by
  have := groupFold_inv as [] [] (by simp) (by intro k; simp [lookG])
  simpa [crashGroupsOf] using this

/-- In an entry list with distinct keys, filtering by a predicate that holds
exactly at one present key yields exactly that entry. -/
theorem entries_filter_singleton (G : List (String × List CoreAnalysis))
    (pred : String × List CoreAnalysis → Bool) (s : String) (gs : List CoreAnalysis)
    (hnd : (G.map Prod.fst).Nodup) (hmem : (s, gs) ∈ G)
    (hiff : ∀ e ∈ G, (pred e = true ↔ e.1 = s)) :
    G.filter pred = [(s, gs)] := by
  induction G with
  | nil => simp at hmem
  | cons e rest ih =>
    obtain ⟨k, g⟩ := e
    rw [List.map_cons] at hnd
    have hnotin : k ∉ rest.map Prod.fst := (List.nodup_cons.mp hnd).1
    have hndrest : (rest.map Prod.fst).Nodup := (List.nodup_cons.mp hnd).2
    by_cases hk : k = s
    · subst hk
      have hhead : (k, gs) = (k, g) := by
        rcases List.mem_cons.mp hmem with heq | htail
        · exact heq
        · exact absurd (List.mem_map.mpr ⟨(k, gs), htail, rfl⟩) hnotin
      have hg : gs = g := congrArg Prod.snd hhead
      have hp : pred (k, g) = true :=
        (hiff (k, g) (List.mem_cons_self _ _)).mpr rfl
      have hrest : rest.filter pred = [] := by
        apply List.filter_eq_nil_iff.mpr
        intro e he
        intro hpe
        have := (hiff e (List.mem_cons_of_mem _ he)).mp hpe
        exact hnotin (this ▸ List.mem_map.mpr ⟨e, he, rfl⟩)
      rw [List.filter_cons_of_pos hp, hrest, hg]
    · have htail : (s, gs) ∈ rest := by
        rcases List.mem_cons.mp hmem with heq | htail
        · exact absurd (congrArg Prod.fst heq).symm hk
        · exact htail
      have hp : ¬ pred (k, g) = true := fun hpe =>
        hk ((hiff (k, g) (List.mem_cons_self _ _)).mp hpe)
      rw [List.filter_cons_of_neg (by simpa using hp)]
      exact ih hndrest htail (fun e he => hiff e (List.mem_cons_of_mem _ he))

/-- C1: in a batch where exactly two analyses share one crash signature and
every other signature occurs at most once, `compareCores` reports exactly one
`CrashPattern`, with occurrence count 2 and the two matching analyses'
core-file paths (in batch order); and in a batch of pairwise-distinct
signatures it reports no patterns. -/
theorem compareCores_pattern_extraction (as : List CoreAnalysis) :
    (∀ s : String,
      (as.filter (fun a => decide (crashSignature a = s))).length = 2 →
      (∀ t ∈ as.map crashSignature, t ≠ s →
        (as.filter (fun a => decide (crashSignature a = t))).length ≤ 1) →
      (compareCores as).crashPatterns
        = [mkCrashPattern s (as.filter (fun a => decide (crashSignature a = s)))] ∧
      ∀ p ∈ (compareCores as).crashPatterns,
        p.occurrenceCount = 2 ∧
        p.affectedCoreFiles
          = (as.filter (fun a => decide (crashSignature a = s))).map
              (fun a => a.coreFile) ∧
        p.affectedCoreFiles.length = 2) ∧
    ((∀ t ∈ as.map crashSignature,
        (as.filter (fun a => decide (crashSignature a = t))).length ≤ 1) →
      (compareCores as).crashPatterns = []) := by
  obtain ⟨hnd, hlook⟩ := crashGroupsOf_char as
  have hentry : ∀ e ∈ crashGroupsOf as,
      e.2 = as.filter (fun a => decide (crashSignature a = e.1)) := by
    intro e he
    rw [← hlook e.1]
    exact (lookG_of_mem_nodup _ _ _ hnd he).symm
  constructor
  · intro s h2 h1
    have hne : lookG (crashGroupsOf as) s ≠ [] := by
      rw [hlook s]
      intro hc
      rw [hc] at h2
      simp at h2
    obtain ⟨kg, hkgmem, hkg1⟩ := List.mem_map.mp (mem_keys_of_lookG_ne _ _ hne)
    have hkg : (s, kg.2) ∈ crashGroupsOf as := by
      rw [← hkg1]
      exact hkgmem
    have hkg2 : kg.2 = as.filter (fun a => decide (crashSignature a = s)) := by
      rw [← hlook s]
      exact (lookG_of_mem_nodup _ _ _ hnd hkg).symm
    have hiff : ∀ e ∈ crashGroupsOf as,
        ((fun e => decide (1 < e.2.length)) e = true ↔ e.1 = s) := by
      intro e he
      rw [decide_eq_true_eq]
      constructor
      · intro hp
        rw [hentry e he] at hp
        have hmem1 : e.1 ∈ as.map crashSignature := by
          have hlen : 0 < (as.filter
              (fun a => decide (crashSignature a = e.1))).length := by omega
          obtain ⟨a, ha⟩ := List.exists_mem_of_length_pos hlen
          have hsig : crashSignature a = e.1 := by
            have := List.of_mem_filter ha
            simpa using this
          exact List.mem_map.mpr ⟨a, List.mem_of_mem_filter ha, hsig⟩
        by_contra hne'
        have hle := h1 e.1 hmem1 hne'
        omega
      · intro he1
        rw [hentry e he, he1, h2]
        omega
    have hfilter : (crashGroupsOf as).filter (fun e => decide (1 < e.2.length))
        = [(s, kg.2)] := entries_filter_singleton _ _ s kg.2 hnd hkg hiff
    have hpat : (compareCores as).crashPatterns
        = [mkCrashPattern s (as.filter (fun a => decide (crashSignature a = s)))] := by
      simp only [compareCores]
      rw [hfilter]
      simp only [List.map_cons, List.map_nil, sortPatternsDesc, List.foldr,
        insertPatternDesc]
      rw [hkg2]
    refine ⟨hpat, ?_⟩
    intro p hp
    rw [hpat] at hp
    rcases List.mem_singleton.mp hp with rfl
    refine ⟨?_, rfl, ?_⟩
    · simp only [mkCrashPattern, h2]
      rfl
    · simp only [mkCrashPattern, List.length_map, h2]
  · intro hall
    have hfilter : (crashGroupsOf as).filter (fun e => decide (1 < e.2.length))
        = [] := by
      apply List.filter_eq_nil_iff.mpr
      intro e he hpe
      rw [decide_eq_true_eq, hentry e he] at hpe
      have hmem1 : e.1 ∈ as.map crashSignature := by
        have hlen : 0 < (as.filter
            (fun a => decide (crashSignature a = e.1))).length := by omega
        obtain ⟨a, ha⟩ := List.exists_mem_of_length_pos hlen
        have hsig : crashSignature a = e.1 := by
          have := List.of_mem_filter ha
          simpa using this
        exact List.mem_map.mpr ⟨a, List.mem_of_mem_filter ha, hsig⟩
      have := hall e.1 hmem1
      omega
    simp only [compareCores]
    rw [hfilter]
    rfl

/-- Witness for C1: a three-analysis batch with one duplicated signature
produces exactly one pattern, and a two-analysis batch with distinct
signatures produces none. -/
theorem compareCores_pattern_extraction_witness :
    (compareCores
        [{ coreFile := "core.1", signalInfo := { signalName := "SIGSEGV" },
           stackTrace := [{ function := "processQuery" }] },
         { coreFile := "core.2", signalInfo := { signalName := "SIGSEGV" },
           stackTrace := [{ function := "processQuery" }] },
         { coreFile := "core.3", signalInfo := { signalName := "SIGABRT" },
           stackTrace := [{ function := "AbortTx" }] }]).crashPatterns
      = [mkCrashPattern "SIGSEGV|processQuery"
          (List.filter
            (fun a => decide (crashSignature a = "SIGSEGV|processQuery"))
            [{ coreFile := "core.1", signalInfo := { signalName := "SIGSEGV" },
               stackTrace := [{ function := "processQuery" }] },
             { coreFile := "core.2", signalInfo := { signalName := "SIGSEGV" },
               stackTrace := [{ function := "processQuery" }] },
             { coreFile := "core.3", signalInfo := { signalName := "SIGABRT" },
               stackTrace := [{ function := "AbortTx" }] }])] ∧
    (compareCores
        [{ coreFile := "core.1", signalInfo := { signalName := "SIGSEGV" },
           stackTrace := [{ function := "processQuery" }] },
         { coreFile := "core.2", signalInfo := { signalName := "SIGABRT" },
           stackTrace := [{ function := "AbortTx" }] }]).crashPatterns = [] :=
  ⟨((compareCores_pattern_extraction _).1 "SIGSEGV|processQuery"
      (by decide) (by decide)).1,
   (compareCores_pattern_extraction _).2 (by decide)⟩

/-- Witness for the amended C7 at concrete thread and frame lists
(including a colon-free frame list for the triple-identity part). -/
theorem dedup_idempotent_keepFirst_witness :
    deduplicateThreads (deduplicateThreads
        [{ threadID := "1" }, { threadID := "1" }, { threadID := "2" }])
      = deduplicateThreads
        [{ threadID := "1" }, { threadID := "1" }, { threadID := "2" }] ∧
    deduplicateStackTrace (deduplicateStackTrace
        [{ function := "raise" }, { function := "raise" }])
      = deduplicateStackTrace [{ function := "raise" }, { function := "raise" }] ∧
    (deduplicateThreads [{ threadID := "1" }, { threadID := "1" }]).Sublist
      [{ threadID := "1" }, { threadID := "1" }] ∧
    (deduplicateStackTrace [{ function := "abort" }]).Sublist
      [{ function := "abort" }] ∧
    deduplicateStackTrace [{ function := "raise" }, { function := "abort" }]
      = keepFirst tripleKey [{ function := "raise" }, { function := "abort" }] :=
  ⟨dedup_idempotent_keepFirst.1
      [{ threadID := "1" }, { threadID := "1" }, { threadID := "2" }],
   dedup_idempotent_keepFirst.2.1
      [{ function := "raise" }, { function := "raise" }],
   (dedup_idempotent_keepFirst.2.2.1 [{ threadID := "1" }, { threadID := "1" }]).2,
   (dedup_idempotent_keepFirst.2.2.2.1 [{ function := "abort" }]).2,
   dedup_idempotent_keepFirst.2.2.2.2
      [{ function := "raise" }, { function := "abort" }] (by decide)⟩

/-- C2: evaluation of the crash-signature builder
(cmd/core_parser_output.go:474-478) at a stack whose first frame is the
system function `raise` followed by three non-system frames.  The loop
guard is `i < 3 && !isSystemFunction(...)` over the raw index `i`, so the
system frame still consumes one of the three signature slots and the third
non-system frame (`standardExecutor`, at raw index 3) is excluded — contrary
to the inline comment "Use top 3 non-system frames" and to the claim that
excluded system frames do not count toward the 3-frame limit. -/
theorem crashSignature_system_frames_consume_slots :
    crashSignature
        { signalInfo := { signalName := "SIGSEGV" },
          stackTrace := [{ function := "raise" }, { function := "execScan" },
            { function := "execMain" }, { function := "standardExecutor" }] }
      = "SIGSEGV|execScan|execMain" ∧
    crashSignature
        { signalInfo := { signalName := "SIGSEGV" },
          stackTrace := [{ function := "raise" }, { function := "execScan" },
            { function := "execMain" }, { function := "standardExecutor" }] }
      ≠ "SIGSEGV|execScan|execMain|standardExecutor" := by
  refine ⟨by decide, by decide⟩

/-- C3 counterexample: at fault address `0x15` against a library mapped at
`[0x1000, 0x2000]`, the normalized-string comparison of `findAddressLibrary`
says "contained" (lexicographically `"0x1000" <= "0x15" <= "0x2000"`), yet
`addFaultAddressContext` reports the address as not in mapped memory — it
converts the addresses with `strconv.ParseUint` and compares integers
(`0x15 < 0x1000`), so the enhancement does not decide containment by
normalized string comparison. -/
theorem faultAddress_resolution_not_string_based :
    findAddressLibrary "0x15"
        [{ name := "lib1.so", textStart := "0x1000", textEnd := "0x2000" }]
      = some { name := "lib1.so", textStart := "0x1000", textEnd := "0x2000" } ∧
    stringRangeContains "0x15"
        { name := "lib1.so", textStart := "0x1000", textEnd := "0x2000" } = true ∧
    (addFaultAddressContext
        { signalDescription := "Segmentation fault", faultAddress := "0x15" }
        { libraries :=
            [{ name := "lib1.so", textStart := "0x1000", textEnd := "0x2000" }] }
      ).signalDescription
      = "Segmentation fault (fault address not in mapped memory)" := by
  refine ⟨by decide, by decide, by decide⟩

/-- C3 (amended): the address-to-library lookup (`findAddressLibrary`)
decides containment by normalized string comparison, returning the first
match and `none` (never an error) when the address is outside every known
range; the fault-address description enhancement (`addFaultAddressContext`)
instead converts the addresses to integers via `ParseUint`, silently leaves
the info unchanged when the fault address does not parse, appends the
first integer-range match's library name, and falls back to a
"not in mapped memory" suffix (or no change at all when the description is
empty) when outside every range — also never an error. -/
theorem address_containment_semantics :
    (∀ (address : String) (libs : List LibraryInfo),
      findAddressLibrary address libs = libs.find? (stringRangeContains address)) ∧
    (∀ (address : String) (libs : List LibraryInfo),
      (∀ lib ∈ libs, ¬ stringRangeContains address lib = true) →
      findAddressLibrary address libs = none) ∧
    (∀ (addr : Nat) (libs : List LibraryInfo),
      findIntLibGo addr libs = libs.find? (intRangeContains addr)) ∧
    (∀ (info : SignalInfo) (a : CoreAnalysis),
      goParseUintHex (trimPre0x info.faultAddress) = none →
      addFaultAddressContext info a = info) ∧
    (∀ (info : SignalInfo) (a : CoreAnalysis) (addr : Nat),
      goParseUintHex (trimPre0x info.faultAddress) = some addr →
      (∀ lib ∈ a.libraries, ¬ intRangeContains addr lib = true) →
      (addFaultAddressContext info a = info ∨
       (addFaultAddressContext info a).signalDescription
         = info.signalDescription ++ " (fault address not in mapped memory)")) ∧
    (∀ (info : SignalInfo) (a : CoreAnalysis) (addr : Nat) (lib : LibraryInfo),
      goParseUintHex (trimPre0x info.faultAddress) = some addr →
      findIntLibGo addr a.libraries = some lib →
      (addFaultAddressContext info a).signalDescription
        = info.signalDescription ++ " (fault address in " ++ lib.name ++ ")") := by
  have hfindS : ∀ (address : String) (libs : List LibraryInfo),
      findAddressLibrary address libs = libs.find? (stringRangeContains address) := by
    intro address libs
    induction libs with
    | nil => rfl
    | cons lib rest ih =>
      by_cases h : stringRangeContains address lib
      · simp [findAddressLibrary, findAddrGo, h, List.find?]
      · simp only [findAddressLibrary, findAddrGo, if_neg h] at ih ⊢
        rw [ih, List.find?]
        simp [h]
  have hfindI : ∀ (addr : Nat) (libs : List LibraryInfo),
      findIntLibGo addr libs = libs.find? (intRangeContains addr) := by
    intro addr libs
    induction libs with
    | nil => rfl
    | cons lib rest ih =>
      by_cases h : intRangeContains addr lib
      · simp [findIntLibGo, h, List.find?]
      · simp only [findIntLibGo, if_neg h] at ih ⊢
        rw [ih, List.find?]
        simp [h]
  refine ⟨hfindS, ?_, hfindI, ?_, ?_, ?_⟩
  · intro address libs hnone
    rw [hfindS]
    exact List.find?_eq_none.mpr (fun lib hm => hnone lib hm)
  · intro info a h
    unfold addFaultAddressContext
    rw [h]
  · intro info a addr h hnone
    have hfind : findIntLibGo addr a.libraries = none := by
      rw [hfindI]
      exact List.find?_eq_none.mpr (fun lib hm => hnone lib hm)
    unfold addFaultAddressContext
    rw [h]
    simp only [hfind]
    by_cases hd : info.signalDescription = ""
    · left
      simp [hd]
    · right
      simp [hd]
  · intro info a addr lib h hfind
    unfold addFaultAddressContext
    rw [h]
    simp only [hfind]

/-- Witness for the amended C3: the lookup at an unmapped address returns
`none`; the enhancement leaves a malformed fault address untouched, reports
a contained address's library, and reports not-mapped outside all ranges. -/
theorem address_containment_semantics_witness :
    findAddressLibrary "0x5000"
        [{ name := "lib1.so", textStart := "0x1000", textEnd := "0x2000" }] = none ∧
    addFaultAddressContext
        { signalDescription := "Segmentation fault", faultAddress := "zz" }
        { libraries :=
            [{ name := "lib1.so", textStart := "0x1000", textEnd := "0x2000" }] }
      = { signalDescription := "Segmentation fault", faultAddress := "zz" } ∧
    (addFaultAddressContext
        { signalDescription := "Segmentation fault", faultAddress := "0x5000" }
        { libraries :=
            [{ name := "lib1.so", textStart := "0x1000", textEnd := "0x2000" }] }
      = { signalDescription := "Segmentation fault", faultAddress := "0x5000" } ∨
     (addFaultAddressContext
        { signalDescription := "Segmentation fault", faultAddress := "0x5000" }
        { libraries :=
            [{ name := "lib1.so", textStart := "0x1000", textEnd := "0x2000" }] }
       ).signalDescription
       = "Segmentation fault" ++ " (fault address not in mapped memory)") ∧
    (addFaultAddressContext
        { signalDescription := "Segmentation fault", faultAddress := "0x1500" }
        { libraries :=
            [{ name := "lib1.so", textStart := "0x1000", textEnd := "0x2000" }] }
      ).signalDescription
      = "Segmentation fault" ++ " (fault address in " ++ "lib1.so" ++ ")" :=
  ⟨address_containment_semantics.2.1 "0x5000"
      [{ name := "lib1.so", textStart := "0x1000", textEnd := "0x2000" }]
      (by decide),
   address_containment_semantics.2.2.2.1
      { signalDescription := "Segmentation fault", faultAddress := "zz" }
      { libraries :=
          [{ name := "lib1.so", textStart := "0x1000", textEnd := "0x2000" }] }
      (by decide),
   address_containment_semantics.2.2.2.2.1
      { signalDescription := "Segmentation fault", faultAddress := "0x5000" }
      { libraries :=
          [{ name := "lib1.so", textStart := "0x1000", textEnd := "0x2000" }] }
      20480 (by decide) (by decide),
   address_containment_semantics.2.2.2.2.2
      { signalDescription := "Segmentation fault", faultAddress := "0x1500" }
      { libraries :=
          [{ name := "lib1.so", textStart := "0x1000", textEnd := "0x2000" }] }
      5376 { name := "lib1.so", textStart := "0x1000", textEnd := "0x2000" }
      (by decide) (by decide)⟩

/-- C6: parsing the single library-table line
`"0x1000 0x2000 Yes /usr/lib/libssl.so.1.1"` yields exactly one
`LibraryInfo`, with `Version "1.1"`, `Type "Security"` (the `ssl` rule of
the priority table fires before the generic `/lib` system rule), and
`IsLoaded = true` (`"Yes"` is exactly the loaded sentinel). -/
theorem parseSharedLibraries_ssl_line :
    parseSharedLibraries "0x1000 0x2000 Yes /usr/lib/libssl.so.1.1"
      = [{ name := "/usr/lib/libssl.so.1.1", startAddr := "0x1000",
           endAddr := "0x2000", version := "1.1", type := "Security",
           isLoaded := true, textStart := "0x1000", textEnd := "0x2000" }] ∧
    (parseSharedLibraries "0x1000 0x2000 Yes /usr/lib/libssl.so.1.1").length = 1 ∧
    ∀ lib ∈ parseSharedLibraries "0x1000 0x2000 Yes /usr/lib/libssl.so.1.1",
      lib.version = "1.1" ∧ lib.type = "Security" ∧ lib.isLoaded = true := by
  refine ⟨by decide, by decide, by decide⟩

theorem mapGet_mapPut_same (m : List (String × String)) (k v : String) :
    mapGet (mapPut m k v) k = some v := by
  induction m with
  | nil => simp [mapPut, mapGet]
  | cons e rest ih =>
    obtain ⟨k', v'⟩ := e
    by_cases hk : k' = k
    · simp [mapPut, mapGet, hk]
    · simp [mapPut, mapGet, hk, ih]

/-- C9 counterexample: on an input from which no field could be extracted,
`parseBasicInfo` (cmd/core_parser_info.go:31-70) still emits a description —
and renders every absent field as the placeholder `"N/A"` (the loop at
line 49 assigns `"N/A"` to every unmatched capture and the description at
lines 61-67 prints all of them), contradicting "absent fields are skipped
silently and never rendered as placeholder values". -/
theorem parseBasicInfo_renders_placeholders :
    mapGet (parseBasicInfo "") "description"
      = some ("Coordinator Write (Read-Only Mode), Database N/A, " ++
          "Segment N/A, Connection N/A, Client N/A (PID N/A)") ∧
    strContains (mapGetD (parseBasicInfo "") "description") "N/A" = true := by
  refine ⟨by decide, by decide⟩

/-- C9 (amended): the description assembled by `extractProcessInfo`
(cmd/core_parser_info.go:115-139) behaves as the claim states — it is the
comma-join of exactly the non-empty fields in the fixed order process type,
database, segment, connection, client(+pid), and when no field is present
the `description` key is left untouched; but `parseBasicInfo` assigns
`"N/A"` placeholders to unmatched fields and its description renders every
field, placeholders included. -/
theorem extractProcessInfo_description_fields :
    (∀ m : List (String × String), descParts m = specDescFields m) ∧
    (∀ (cmdline : String) (info : List (String × String)),
      (descParts (extractPhase cmdline info) = [] →
        extractProcessInfo cmdline info = extractPhase cmdline info) ∧
      (descParts (extractPhase cmdline info) ≠ [] →
        mapGet (extractProcessInfo cmdline info) "description"
          = some (String.intercalate ", "
              (specDescFields (extractPhase cmdline info))))) := by
  have hparts : ∀ m : List (String × String), descParts m = specDescFields m := by
    intro m
    simp only [descParts, specDescFields, List.filterMap]
    split_ifs <;> simp
  refine ⟨hparts, ?_⟩
  intro cmdline info
  constructor
  · intro h
    unfold extractProcessInfo
    simp [h]
  · intro h
    unfold extractProcessInfo
    have hlen : 0 < (descParts (extractPhase cmdline info)).length :=
      List.length_pos.mpr h
    simp only [gt_iff_lt, hlen, if_true, ← hparts]
    exact mapGet_mapPut_same _ _ _

/-- Witness for the amended C9: a full coordinator command line produces the
comma-joined description of exactly its extracted fields, and a command line
yielding no fields leaves the map without a description. -/
theorem extractProcessInfo_description_fields_witness :
    descParts [("process_type", "Coordinator Write Process")]
      = specDescFields [("process_type", "Coordinator Write Process")] ∧
    extractProcessInfo "bash" [] = extractPhase "bash" [] ∧
    mapGet (extractProcessInfo
        "postgres: 5, user db 192.168.1.10(4321) con9 seg2 cmd8 slice3" [])
        "description"
      = some (String.intercalate ", "
          (specDescFields (extractPhase
            "postgres: 5, user db 192.168.1.10(4321) con9 seg2 cmd8 slice3" []))) :=
  ⟨extractProcessInfo_description_fields.1 [("process_type", "Coordinator Write Process")],
   (extractProcessInfo_description_fields.2 "bash" []).1 (by decide),
   (extractProcessInfo_description_fields.2
      "postgres: 5, user db 192.168.1.10(4321) con9 seg2 cmd8 slice3" []).2
      (by decide)⟩

theorem splitChAux_append_no_sep (sep : Char) (w : List Char) :
    sep ∉ w → ∀ (cs acc : List Char),
      splitChAux sep (w ++ cs) acc = splitChAux sep cs (w.reverse ++ acc) := by
  induction w with
  | nil => intro _ cs acc; simp
  | cons c w' ih =>
    intro hw cs acc
    have hc : ¬ (c = sep) := fun hcc => hw (hcc ▸ List.mem_cons_self c w')
    simp only [List.cons_append, splitChAux, if_neg hc, List.append_eq]
    rw [ih (fun hm => hw (List.mem_cons_of_mem _ hm))]
    simp

theorem strMk_data (s : String) : String.mk s.data = s := rfl

/-- Splitting a newline-join of newline-free lines recovers the lines. -/
theorem splitCh_joinNL (l : List String) :
    l ≠ [] → (∀ s ∈ l, '\n' ∉ s.data) → splitCh '\n' (joinNL l) = l := by
  induction l with
  | nil => intro h _; exact absurd rfl h
  | cons x rest ih =>
    intro _ hfree
    match rest with
    | [] =>
      show splitCh '\n' x = [x]
      unfold splitCh
      have h0 : splitChAux '\n' (x.data ++ []) [] =
          splitChAux '\n' [] (x.data.reverse ++ []) :=
        splitChAux_append_no_sep '\n' x.data
          (hfree x (List.mem_cons_self _ _)) [] []
      rw [List.append_nil] at h0
      rw [h0]
      simp [splitChAux, strMk_data]
    | y :: rest' =>
      show splitCh '\n' (x ++ "\n" ++ joinNL (y :: rest')) = x :: y :: rest'
      unfold splitCh
      have hd : (x ++ "\n" ++ joinNL (y :: rest')).data
          = x.data ++ '\n' :: (joinNL (y :: rest')).data := by
        simp [String.data_append]
      rw [hd, splitChAux_append_no_sep '\n' x.data
        (hfree x (List.mem_cons_self _ _)) _ []]
      have hone : splitChAux '\n' ('\n' :: (joinNL (y :: rest')).data)
          (x.data.reverse ++ [])
          = (x.data.reverse ++ []).reverse
              :: splitChAux '\n' (joinNL (y :: rest')).data [] := by
        simp [splitChAux]
      rw [hone]
      simp only [List.append_nil, List.reverse_reverse, List.map_cons, strMk_data]
      have hih := ih (by simp) (fun s hs => hfree s (List.mem_cons_of_mem _ hs))
      unfold splitCh at hih
      rw [hih]

/-- A `filterMap` by an everywhere-`isSome` function keeps the length. -/
theorem filterMap_length_of_isSome {β γ : Type} (g : β → Option γ) :
    ∀ l : List β, (∀ a ∈ l, (g a).isSome = true) →
      (l.filterMap g).length = l.length := by
  intro l
  induction l with
  | nil => intro _; rfl
  | cons a l' ih =>
    intro hall
    obtain ⟨v, hv⟩ := Option.isSome_iff_exists.mp (hall a (List.mem_cons_self _ _))
    rw [List.filterMap_cons, hv]
    simp only [List.length_cons]
    rw [ih (fun b hb => hall b (List.mem_cons_of_mem _ hb))]

/-- Frame lines that start with `#`, parse as frames, and do not match the
thread-header pattern extend the current thread one frame per line. -/
theorem ptGo_frames (fs : List String) :
    ∀ t : ThreadInfo,
      (∀ f ∈ fs, strHasPre f "#" = true ∧ (parseStackFrame f).isSome = true ∧
        scanThreadHead f.data = none) →
      ptGo fs (some t)
        = [{ t with
              name := determineThreadRole (t.backtrace ++ fs.filterMap parseStackFrame),
              backtrace := t.backtrace ++ fs.filterMap parseStackFrame }] := by
  induction fs with
  | nil => intro t _; simp [ptGo]
  | cons f fs' ih =>
    intro t hall
    obtain ⟨hpre, hsome, hnone⟩ := hall f (List.mem_cons_self _ _)
    obtain ⟨fr, hfr⟩ := Option.isSome_iff_exists.mp hsome
    simp only [ptGo, hnone, hpre, if_pos, hfr]
    rw [ih { t with backtrace := t.backtrace ++ [fr] }
      (fun g hg => hall g (List.mem_cons_of_mem _ hg))]
    simp [List.filterMap_cons, hfr]

/-- C4 counterexample: the line `"#0  0x0 in foo (Thread 2 )"` matches the
frame grammar (`parseStackFrame` succeeds on it), yet it also matches the
thread-header pattern (`threadRE`'s two trailing groups are optional, so any
`Thread <n> ` occurrence — here inside the argument list — is a header
match, which `parseThreads` checks first).  A thread header followed by this
single frame line therefore yields two threads instead of one thread with
one frame. -/
theorem parseThreads_frame_line_matching_header :
    (parseStackFrame "#0  0x0 in foo (Thread 2 )").isSome = true ∧
    (scanThreadHead ("Thread 1 (LWP 12345):".data)).isSome = true ∧
    (parseThreads "Thread 1 (LWP 12345):\n#0  0x0 in foo (Thread 2 )").length = 2 := by
  refine ⟨by decide, by decide, by decide⟩

/-- C4 (amended): for a thread-header line followed by N frame lines, each
of which starts with `#` and does not itself match the thread-header
pattern, `parseThreads` returns exactly one `ThreadInfo` whose backtrace is
the frames of those lines in input order (hence exactly N frames). -/
theorem parseThreads_one_thread_n_frames (h : String) (fs : List String)
    (hh : (scanThreadHead h.data).isSome = true)
    (hfs : ∀ f ∈ fs, strHasPre f "#" = true ∧ (parseStackFrame f).isSome = true ∧
      scanThreadHead f.data = none)
    (hnlh : '\n' ∉ h.data) (hnlf : ∀ f ∈ fs, '\n' ∉ f.data) :
    ∃ t : ThreadInfo,
      parseThreads (joinNL (h :: fs)) = [t] ∧
      t.backtrace = fs.filterMap parseStackFrame ∧
      t.backtrace.length = fs.length := by
  obtain ⟨pr, hpr⟩ := Option.isSome_iff_exists.mp hh
  have hsplit : splitCh '\n' (joinNL (h :: fs)) = h :: fs :=
    splitCh_joinNL (h :: fs) (by simp)
      (by
        intro s hs
        rcases List.mem_cons.mp hs with rfl | hs'
        · exact hnlh
        · exact hnlf s hs')
  unfold parseThreads
  rw [hsplit]
  obtain ⟨tid, lwp⟩ := pr
  have hstep : ptGo (h :: fs) none = ptGo fs (some
      { threadID := tid, lwpID := lwp, isCrashed := strContains h "* " }) := by
    simp [ptGo, hpr]
  rw [hstep, ptGo_frames fs _ hfs]
  refine ⟨⟨tid, lwp, determineThreadRole (fs.filterMap parseStackFrame), "",
      strContains h "* ", fs.filterMap parseStackFrame⟩, ?_, rfl, ?_⟩
  · show deduplicateThreads [_] = _
    simp only [deduplicateThreads, dedupByKey, dedupGo]
    rw [if_neg (by simp)]
    simp [dedupGo]
  · exact filterMap_length_of_isSome parseStackFrame fs
      (fun f hf => (hfs f hf).2.1)

/-- Witness for the amended C4 at the transcript of §8 of the spec. -/
theorem parseThreads_one_thread_n_frames_witness :
    ∃ t : ThreadInfo,
      parseThreads (joinNL ["Thread 1 (LWP 12345):",
        "#0  0x00007f8b4c37c425 in raise () from /lib64/libc.so.6"]) = [t] ∧
      t.backtrace = ["#0  0x00007f8b4c37c425 in raise () from /lib64/libc.so.6"
        ].filterMap parseStackFrame ∧
      t.backtrace.length = 1 :=
  parseThreads_one_thread_n_frames "Thread 1 (LWP 12345):"
    ["#0  0x00007f8b4c37c425 in raise () from /lib64/libc.so.6"]
    (by decide) (by decide) (by decide) (by decide)

/-- C8 counterexample: a transcript whose two thread-header lines both carry
the `"* "` marker yields two threads with the crashed flag set —
`parseThreads` copies the marker per header and nothing enforces uniqueness. -/
theorem parseThreads_two_crashed :
    ((parseThreads "* Thread 1 (LWP 1):\n* Thread 2 (LWP 2):").countP
      (fun t => t.isCrashed)) = 2 := by
  decide

/-- Crashed threads produced by the loop are bounded by the number of
`"* "`-marked lines plus the in-progress thread's flag. -/
theorem ptGo_crash_le (lines : List String) :
    ∀ cur : Option ThreadInfo,
      ((ptGo lines cur).countP (fun t => t.isCrashed))
        ≤ lines.countP (fun l => strContains l "* ") + curCrashVal cur := by
  induction lines with
  | nil =>
    intro cur
    match cur with
    | none => simp [ptGo, curCrashVal]
    | some t =>
      simp only [ptGo, List.countP_nil, List.countP_cons, curCrashVal]
      by_cases h : t.isCrashed <;> simp [h]
  | cons line rest ih =>
    intro cur
    have hstar : List.countP (fun l => strContains l "* ") (line :: rest)
        = List.countP (fun l => strContains l "* ") rest
          + (if strContains line "* " = true then 1 else 0) := by
      simp [List.countP_cons]
    cases hh : scanThreadHead line.data with
    | some pr =>
      obtain ⟨tid, lwp⟩ := pr
      have hx := ih (some ⟨tid, lwp, "", "", strContains line "* ", []⟩)
      simp only [curCrashVal] at hx
      match cur with
      | none =>
        simp only [ptGo, hh, curCrashVal]
        rw [hstar]
        omega
      | some t =>
        simp only [ptGo, hh, curCrashVal, List.countP_cons]
        omega
    | none =>
      match cur with
      | none =>
        have hx := ih none
        simp only [ptGo, hh, curCrashVal] at hx ⊢
        rw [hstar]
        omega
      | some t =>
        simp only [ptGo, hh, curCrashVal]
        by_cases hpre : strHasPre line "#"
        · rw [if_pos hpre]
          cases hf : parseStackFrame line with
          | some fr =>
            have hx := ih (some { t with backtrace := t.backtrace ++ [fr] })
            simp only [curCrashVal] at hx
            simp only [hstar]
            omega
          | none =>
            have hx := ih (some t)
            simp only [curCrashVal] at hx
            simp only [hstar]
            omega
        · rw [if_neg hpre]
          have hx := ih (some t)
          simp only [curCrashVal] at hx
          rw [hstar]
          omega

/-- C8 (amended): `parseThreads` yields at most one crashed thread whenever
at most one transcript line carries the `"* "` marker that `parseThreads`
copies into the flag; the parsing pipeline itself does not enforce the
at-most-one invariant (see the counterexample). -/
theorem parseThreads_at_most_one_crashed (output : String)
    (h : (splitCh '\n' output).countP (fun l => strContains l "* ") ≤ 1) :
    ((parseThreads output).countP (fun t => t.isCrashed)) ≤ 1 := by
  unfold parseThreads deduplicateThreads
  have h1 := ptGo_crash_le (splitCh '\n' output) none
  simp only [curCrashVal] at h1
  have h2 : ((dedupByKey (fun t => t.threadID)
      (ptGo (splitCh '\n' output) none)).countP (fun t => t.isCrashed))
      ≤ ((ptGo (splitCh '\n' output) none).countP (fun t => t.isCrashed)) := by
    rw [dedupByKey_eq_keepFirst]
    exact List.Sublist.countP_le _ (keepFirst_sublist _ _ _ le_rfl)
  omega

/-- Witness for the amended C8: one marked and one unmarked header. -/
theorem parseThreads_at_most_one_crashed_witness :
    ((parseThreads "* Thread 1 (LWP 1):\nThread 2 (LWP 2):").countP
      (fun t => t.isCrashed)) ≤ 1 :=
  parseThreads_at_most_one_crashed
    "* Thread 1 (LWP 1):\nThread 2 (LWP 2):" (by decide)

end CBToolbox
